import Mathlib

/-!
Verification of `opb-offline.py`, a single-file downloader for episodes of a
show published on watch.opb.org.

The development shallowly embeds the pure logic of the script:

* the prioritized regular-expression classification of an episode's metadata
  fragment (`Season._populate`, lines 92-108),
* the episode comparison (`Episode.__lt__`) and the season-level
  `sorted(self.episodes)` call (CPython's list sort: for lists shorter than
  64 elements Timsort performs a single run detection followed by binary
  insertion, which is embedded exactly; no merge step occurs at these sizes),
* season discovery (`Show._populate`),
* title normalization, filename/folder construction and the
  duplicate-detection pattern (`Episode.get_normalized_title`,
  `Episode.get_filename`, `Episode.get_dupe_check_regex`,
  `Season.get_normalized_name`, `Season.get_folder_name`, `dupe_exists`),
* the stage-2 step of video-URL resolution (`Episode.get_video_url`),
* the audio-channel-layout mapping (`get_audio_channels`),
* the retried rename (`rename_file` under `@retry(PermissionError, delay=1,
  tries=5)`).

Strings are modelled as `List Char`; Python regular expressions are modelled
by explicit leftmost/greedy backtracking matchers restricted to the exact
patterns the script uses, over the ASCII fragment the script's data lives in.
-/

namespace OpbOffline

/-! ## Basic Python-semantics utilities -/

/-- Python truthiness of an optional integer attribute: `None` and `0` are
falsy, every other integer is truthy. -/
def truthyNat : Option Nat → Bool
  | none => false
  | some n => n != 0

/-- Python truthiness of an optional string: `None` and `''` are falsy. -/
def truthyStr : Option (List Char) → Bool
  | none => false
  | some s => s != []

/-- Numeric value of a decimal digit character. -/
def digVal (c : Char) : Nat := c.toNat - 48

/-- `int(s)` on a string of decimal digits. -/
def digitsToNat (l : List Char) : Nat := l.foldl (fun a c => a * 10 + digVal c) 0

/-- Fuel-driven worker for `natDigits` (structural, so that the kernel can
evaluate it). -/
def natDigitsAux : Nat → Nat → List Char
  | 0, _ => []
  | fuel + 1, n =>
    if n < 10 then [Nat.digitChar n]
    else natDigitsAux fuel (n / 10) ++ [Nat.digitChar (n % 10)]

/-- The decimal digit string of a natural number, as produced by Python's
`str`/f-string formatting of a non-negative int. -/
def natDigits (n : Nat) : List Char := natDigitsAux (n + 1) n

/-- `'%0wd' % n`: the decimal digits of `n`, zero-padded on the left to width
`w` (Python's `{:02d}` and `strftime` zero padding). -/
def padZeros (w : Nat) (n : Nat) : List Char :=
  List.replicate (w - (natDigits n).length) '0' ++ natDigits n

/-- Python `s.replace(a, b)` for a single-character target `a`. -/
def pyReplace (a : Char) (b : List Char) : List Char → List Char
  | [] => []
  | c :: cs => (if c = a then b else [c]) ++ pyReplace a b cs

/-- `re.sub(r'\.+', '.', s)`: every maximal run of dots collapses to a single
dot (the last dot of each run is kept, which is the same string). -/
def collapseDots : List Char → List Char
  | [] => []
  | c :: cs =>
    if c = '.' && cs.head? == some '.' then collapseDots cs
    else c :: collapseDots cs

/-- Python whitespace recognized by `str.strip()` (ASCII fragment). -/
def isPyWS (c : Char) : Bool :=
  c == ' ' || c == '\t' || c == '\n' || c == '\r' || c == '\x0b' || c == '\x0c'

/-- Python `str.strip()` (ASCII whitespace). -/
def pyStrip (s : List Char) : List Char :=
  ((s.dropWhile isPyWS).reverse.dropWhile isPyWS).reverse

/-- `\w` of Python `re` on the ASCII range: letters, digits and underscore. -/
def isWordChar (c : Char) : Bool := c.isAlphanum || c == '_'

/-! ## Episode metadata classification (`Season._populate`, lines 92-108)

Each of the four regular expressions of the classification chain is embedded
as an at-position matcher (with the engine's greedy backtracking made
explicit), and `re.search` as the leftmost position at which the matcher
succeeds. -/

/-- Take exactly `k` decimal digits from the front of `s`. -/
def takeDigits (k : Nat) (s : List Char) : Option (List Char × List Char) :=
  match k, s with
  | 0, s => some ([], s)
  | k + 1, c :: cs =>
    if c.isDigit then (takeDigits k cs).map (fun p => (c :: p.1, p.2)) else none
  | _ + 1, [] => none

/-- Match a literal string at the front, returning the remainder. -/
def expectChars (p : List Char) (s : List Char) : Option (List Char) :=
  if p.isPrefixOf s then some (s.drop p.length) else none

/-- `re.search`: try the at-position matcher `f` at every position of `s`,
left to right (the position at the end of the string included). -/
def searchLeft (f : List Char → Option β) : List Char → Option β
  | [] => f []
  | c :: cs => (f (c :: cs)).orElse (fun _ => searchLeft f cs)

/-- Greedy `\d{lo,hi}` followed by a required tail: try the digit counts in
the given (descending) order, accepting the first count whose continuation
matches; returns the captured digits. -/
def tryDigitsThen (ks : List Nat) (s : List Char) (tail : List Char → Bool) :
    Option (List Char) :=
  ks.findSome? fun k =>
    match takeDigits k s with
    | some (d, r) => if tail r then some d else none
    | none => none

/-- The common prefix `S(\d{1,2}) Ep` of patterns 1 and 2, at one position,
for one greedy choice `k1` of the length of group 1. -/
def sEpRest (k1 : Nat) (r : List Char) : Option (List Char) :=
  match takeDigits k1 r with
  | some (_, r1) => expectChars " Ep".data r1
  | none => none

/-- At-position matcher for `S(\d{1,2}) Ep(\d{1,2}) \| ` (line 97); returns
`int(group(2))`. -/
def matchEp12 (s : List Char) : Option Nat :=
  match s with
  | c :: r =>
    if c = 'S' then
      [2, 1].findSome? fun k1 =>
        match sEpRest k1 r with
        | some r2 =>
          (tryDigitsThen [2, 1] r2 (fun r3 => (expectChars " | ".data r3).isSome)).map
            digitsToNat
        | none => none
    else none
  | [] => none

/-- The tail `(( \| )|\n)` of pattern 2 (alternatives tried left to right). -/
def ep34Tail (r : List Char) : Bool :=
  (expectChars " | ".data r).isSome || (expectChars "\n".data r).isSome

/-- At-position matcher for `S(\d{1,2}) Ep(\d{3,4})(( \| )|\n)` (line 99);
returns the captured digits of group 2. -/
def matchEp34 (s : List Char) : Option (List Char) :=
  match s with
  | c :: r =>
    if c = 'S' then
      [2, 1].findSome? fun k1 =>
        match sEpRest k1 r with
        | some r2 => tryDigitsThen [4, 3] r2 ep34Tail
        | none => none
    else none
  | [] => none

/-- At-position matcher for ` (\d{2}/\d{2}/\d{4}) ` (line 101); returns the
month, day and year digit values. -/
def matchDateFrag (s : List Char) : Option (Nat × Nat × Nat) :=
  match s with
  | ' ' :: r =>
    match takeDigits 2 r with
    | some (m, r1) =>
      match expectChars "/".data r1 with
      | some r2 =>
        match takeDigits 2 r2 with
        | some (d, r3) =>
          match expectChars "/".data r3 with
          | some r4 =>
            match takeDigits 4 r4 with
            | some (y, r5) =>
              if (expectChars " ".data r5).isSome then
                some (digitsToNat m, digitsToNat d, digitsToNat y)
              else none
            | none => none
          | none => none
        | none => none
      | none => none
    | none => none
  | _ => none

/-- At-position matcher for `(\w+)(( \| )|\n)` (line 106); returns group 1.
`\w+` is greedy: the longest word run is tried first. -/
def matchWordGroup (s : List Char) : Option (List Char) :=
  let n := (s.takeWhile isWordChar).length
  (List.range n).findSome? fun i =>
    let k := n - i
    if ep34Tail (s.drop k) then some (s.take k) else none

/-- A calendar date as held by a Python `datetime`. -/
structure PyDate where
  year : Nat
  month : Nat
  day : Nat
deriving DecidableEq, Repr

def isLeapYear (y : Nat) : Bool :=
  (y % 4 == 0 && y % 100 != 0) || y % 400 == 0

def daysInMonth (y m : Nat) : Nat :=
  if m = 2 then (if isLeapYear y then 29 else 28)
  else if m = 4 ∨ m = 6 ∨ m = 9 ∨ m = 11 then 30
  else 31

/-- `datetime.strptime(s, '%m/%d/%Y')` on already-split digit fields: `none`
models the `ValueError` raised on an invalid calendar date (which aborts the
season parse, so no episode is produced). -/
def pyStrptime (m d y : Nat) : Option PyDate :=
  if 1 ≤ m ∧ m ≤ 12 ∧ 1 ≤ d ∧ d ≤ daysInMonth y m ∧ 1 ≤ y ∧ y ≤ 9999 then
    some ⟨y, m, d⟩
  else none

/-- The identity fields a classification pass assigns to one episode. -/
structure EpisodeIdentity where
  num : Option Nat
  date : Option PyDate
  additionalGroup : Option (List Char)
deriving DecidableEq, Repr

/-- The classification chain of `Season._populate` (lines 92-108) applied to
one episode's metadata fragment.  `none` models the crash paths (a date that
`strptime` rejects, or no rule matching at all, in which case `.group` is
called on `None`), on which no episode is produced. -/
def classifyInfo (info : List Char) : Option EpisodeIdentity :=
  match searchLeft matchEp12 info with
  | some n => some ⟨some n, none, none⟩
  | none =>
    match searchLeft matchEp34 info with
    | some ds => some ⟨some (digitsToNat (ds.drop (ds.length - 2))), none, none⟩
    | none =>
      match searchLeft matchDateFrag info with
      | some (m, d, y) =>
        match pyStrptime m d y with
        | some dt => some ⟨none, some dt, none⟩
        | none => none
      | none =>
        match searchLeft matchWordGroup info with
        | some w => some ⟨none, none, some w⟩
        | none => none

/-! ## The Season / Episode records and filename construction -/

/-- The identity part of a `Season` (its `episodes` list is handled
separately, since episodes hold a back-reference to their season). -/
structure SeasonRec where
  title : List Char
  num : Option Nat
  additional_group : Option (List Char)
deriving DecidableEq, Repr

/-- An `Episode` record: identity fields plus the technical attributes that
stay `None` until the downloaded file is probed. -/
structure Episode where
  season : SeasonRec
  title : List Char
  num : Option Nat
  date : Option PyDate
  additional_group : Option (List Char)
  resolution : Option Nat
  video_codec : Option (List Char)
  audio_codec : Option (List Char)
  audio_channels : Option (List Char)
deriving DecidableEq, Repr

/-- Python f-string interpolation of an optional int (`str(None) = "None"`). -/
def pyShowOptNat : Option Nat → List Char
  | none => "None".data
  | some n => natDigits n

/-- Python f-string interpolation of an optional string. -/
def pyShowOptStr : Option (List Char) → List Char
  | none => "None".data
  | some s => s

/-- `f'-{GROUP}' if GROUP else ''` (lines 117, 175, 191): the release-group
suffix; `GROUP` is falsy when unset or empty. -/
def groupTag (g : Option (List Char)) : List Char :=
  if truthyStr g then '-' :: (g.getD []) else []

/-- `Season.get_normalized_name` (lines 113-114). -/
def seasonNormName (s : SeasonRec) : List Char :=
  pyReplace ';' [] (pyReplace ' ' ['.'] s.title)

/-- `datetime.strftime(date, '%Y-%m-%d')` (lines 181, 196). -/
def strftimeYmd (d : PyDate) : List Char :=
  padZeros 4 d.year ++ "-".data ++ padZeros 2 d.month ++ "-".data ++ padZeros 2 d.day

/-- `Season.get_folder_name` (lines 116-121). -/
def seasonFolderName (g : Option (List Char)) (s : SeasonRec) : List Char :=
  if truthyNat s.num then
    seasonNormName s ++ ".S".data ++ padZeros 2 (s.num.getD 0) ++ ".WEB.h264.AAC".data
      ++ groupTag g
  else
    seasonNormName s ++ ".".data ++ pyShowOptStr s.additional_group
      ++ ".WEB.h264.AAC".data ++ groupTag g

/-- The replacement chain of `Episode.get_normalized_title` (lines 168-171),
before dot collapsing. -/
def titleDotted (t : List Char) : List Char :=
  pyReplace '|' ['.'] (pyReplace ':' [] (pyReplace '?' [] (pyReplace '-' ['.']
    (pyReplace '"' [] (pyReplace '\x27' [] (pyReplace '\\' ['.'] (pyReplace '/' ['.']
      (pyReplace ',' [] (pyReplace ';' [] (pyReplace ' ' ['.'] t))))))))))

/-- `Episode.get_normalized_title` (lines 168-172). -/
def normalizeTitle (t : List Char) : List Char := collapseDots (titleDotted t)

def episodeNormTitle (e : Episode) : List Char := normalizeTitle e.title

/-- The common `.<res>p.WEB.<vcodec>.<acodec>.<channels><group>.mp4` suffix of
all three filename templates (lines 178-179, 183-184, 187-188). -/
def techSuffix (g : Option (List Char)) (e : Episode) : List Char :=
  ".".data ++ pyShowOptNat e.resolution ++ "p.WEB.".data
    ++ pyShowOptStr e.video_codec ++ ".".data ++ pyShowOptStr e.audio_codec
    ++ ".".data ++ pyShowOptStr e.audio_channels ++ groupTag g ++ ".mp4".data

/-- `Episode.get_filename` (lines 174-188).  The branch conditions use Python
truthiness: a season or episode number equal to `0` is falsy. -/
def episodeFilename (g : Option (List Char)) (e : Episode) : List Char :=
  if truthyNat e.season.num && truthyNat e.num then
    seasonNormName e.season ++ ".S".data ++ padZeros 2 (e.season.num.getD 0)
      ++ "E".data ++ padZeros 2 (e.num.getD 0) ++ ".".data ++ episodeNormTitle e
      ++ techSuffix g e
  else if truthyNat e.season.num && e.date.isSome then
    seasonNormName e.season ++ ".S".data ++ padZeros 2 (e.season.num.getD 0)
      ++ ".".data ++ strftimeYmd (e.date.getD ⟨1, 1, 1⟩) ++ ".".data
      ++ episodeNormTitle e ++ techSuffix g e
  else
    seasonNormName e.season ++ ".".data ++ pyShowOptStr e.additional_group
      ++ ".".data ++ episodeNormTitle e ++ techSuffix g e

/-- The wildcard tail `\d{2,4}` + `p.WEB.\w+.\w+.\d.\d` + `<group>.mp4` of
`Episode.get_dupe_check_regex` (lines 190-201), as a pattern string. -/
def dupeWildTail (g : Option (List Char)) : List Char :=
  "\\d\x7b2,4\x7dp.WEB.\\w+.\\w+.\\d.\\d".data ++ groupTag g ++ ".mp4".data

/-- `Episode.get_dupe_check_regex` (lines 190-201): the duplicate-detection
pattern string (a Python regex source string). -/
def dupeCheckRegex (g : Option (List Char)) (e : Episode) : List Char :=
  if truthyNat e.season.num && truthyNat e.num then
    seasonNormName e.season ++ ".S".data ++ padZeros 2 (e.season.num.getD 0)
      ++ "E".data ++ padZeros 2 (e.num.getD 0) ++ ".".data ++ episodeNormTitle e
      ++ ".".data ++ dupeWildTail g
  else if truthyNat e.season.num && e.date.isSome then
    seasonNormName e.season ++ ".S".data ++ padZeros 2 (e.season.num.getD 0)
      ++ ".".data ++ strftimeYmd (e.date.getD ⟨1, 1, 1⟩) ++ ".".data
      ++ episodeNormTitle e ++ ".".data ++ dupeWildTail g
  else
    seasonNormName e.season ++ ".".data ++ pyShowOptStr e.additional_group
      ++ ".".data ++ episodeNormTitle e ++ ".".data ++ dupeWildTail g

/-! ## The regex fragment used by the duplicate check

`dupe_exists` runs `re.search(episode.get_dupe_check_regex(), file)`.  The
patterns that function emits consist of literal characters, `.`, `\d`,
`\d{2,4}` and `\w+` (provided the interpolated names contain no regex
metacharacter; `compilePattern` rejects any other construct, and the theorems
about matching carry that safety hypothesis). -/

/-- Regex metacharacters: a pattern character outside the supported fragment. -/
def isMeta (c : Char) : Bool :=
  c == '\\' || c == '[' || c == ']' || c == '(' || c == ')' || c == '*' ||
  c == '+' || c == '?' || c == '^' || c == '$' || c == '|' ||
  c == '\x7b' || c == '\x7d'

/-- Tokens of the supported regex fragment. -/
inductive RTok where
  | lit (c : Char)
  | anyc
  | digit
  | digits (lo hi : Nat)
  | wordPlus
deriving DecidableEq, Repr

/-- Compile a pattern string of the supported fragment to tokens; `none` on
any unsupported construct.  The escape sequences the duplicate-check patterns
contain are `\d{2,4}`, `\w+` and `\d` (the latter never followed by an
opening brace). -/
def compilePattern : List Char → Option (List RTok)
  | [] => some []
  | c :: rest =>
    if c = '\\' then
      match rest with
      | c1 :: rest1 =>
        if c1 = 'd' then
          match rest1 with
          | c2 :: rest2 =>
            if c2 = '\x7b' then
              match rest2 with
              | c3 :: c4 :: c5 :: c6 :: rest3 =>
                if c3 = '2' ∧ c4 = ',' ∧ c5 = '4' ∧ c6 = '\x7d' then
                  (compilePattern rest3).map (fun t => RTok.digits 2 4 :: t)
                else none
              | _ => none
            else (compilePattern (c2 :: rest2)).map (fun t => RTok.digit :: t)
          | [] => some [RTok.digit]
        else if c1 = 'w' then
          match rest1 with
          | c2 :: rest2 =>
            if c2 = '+' then (compilePattern rest2).map (fun t => RTok.wordPlus :: t)
            else none
          | [] => none
        else none
      | [] => none
    else if c = '.' then (compilePattern rest).map (fun t => RTok.anyc :: t)
    else if isMeta c then none
    else (compilePattern rest).map (fun t => RTok.lit c :: t)

/-- Length of the maximal `\w` run at the front. -/
def wordRun (s : List Char) : Nat := (s.takeWhile isWordChar).length

/-- Fuel-driven backtracking matcher for the token list at the current
position (the fuel is the token count: every token consumes at least one
token of the pattern).  Greedy quantifiers try longer matches first; a match
needs not reach the end of the subject (`re.search` semantics). -/
def rmatchF : Nat → List RTok → List Char → Bool
  | _, [], _ => true
  | 0, _ :: _, _ => false
  | fuel + 1, t :: ps, xs =>
    match t, xs with
    | RTok.lit c, x :: xs1 => x == c && rmatchF fuel ps xs1
    | RTok.anyc, _ :: xs1 => rmatchF fuel ps xs1
    | RTok.digit, x :: xs1 => x.isDigit && rmatchF fuel ps xs1
    | RTok.digits lo hi, _ =>
      (List.range (hi + 1 - lo)).any fun i =>
        match takeDigits (hi - i) xs with
        | some (_, rest) => rmatchF fuel ps rest
        | none => false
    | RTok.wordPlus, _ =>
      (List.range (wordRun xs)).any fun i => rmatchF fuel ps (xs.drop (wordRun xs - i))
    | _, [] => false

/-- Match the token list at the current position. -/
def rmatch (ps : List RTok) (xs : List Char) : Bool := rmatchF ps.length ps xs

/-- `re.search` on the compiled tokens: match at some position. -/
def rsearch (ps : List RTok) : List Char → Bool
  | [] => rmatch ps []
  | c :: cs => rmatch ps (c :: cs) || rsearch ps cs

/-- `re.search(pat, s)` restricted to the supported pattern fragment. -/
def pyReSearch (pat : List Char) (s : List Char) : Bool :=
  match compilePattern pat with
  | some toks => rsearch toks s
  | none => false

/-- `dupe_exists` (lines 256-266).  The destination folder is modelled as
`none` when it does not exist and as the list of its filenames otherwise. -/
def dupeExists (g : Option (List Char)) (folder : Option (List (List Char)))
    (e : Episode) : Bool :=
  match folder with
  | none => false
  | some files => files.any fun f => pyReSearch (dupeCheckRegex g e) f

/-! ## Episode comparison and the season sort (lines 111, 209-212)

`Episode.__lt__` returns `self.num < other.num` when both `num` fields are
truthy and `False` otherwise.  `sorted` is CPython's list sort; for fewer
than 64 elements it detects one initial run (reversing it when strictly
descending) and binary-inserts every remaining element into it, which is
embedded here verbatim. -/

/-- `Episode.__lt__` (lines 209-212). -/
def pyLt (a b : Episode) : Bool :=
  truthyNat a.num && truthyNat b.num && decide (a.num.getD 0 < b.num.getD 0)

/-- Fuel-driven binary search for the insertion point, exactly CPython's
`binarysort` probe loop: while `l < r`, probe `m = (l + r) / 2`; if
`pivot < a[m]` set `r = m` else `l = m + 1`. -/
def binLocF (lt : α → α → Bool) (x : α) (a : List α) : Nat → Nat → Nat → Nat
  | 0, l, _ => l
  | fuel + 1, l, r =>
    if l < r then
      if lt x (a.getD ((l + r) / 2) x) then binLocF lt x a fuel l ((l + r) / 2)
      else binLocF lt x a fuel ((l + r) / 2 + 1) r
    else l

/-- Insertion point of `x` into the sorted prefix `a`. -/
def binLoc (lt : α → α → Bool) (x : α) (a : List α) (l r : Nat) : Nat :=
  binLocF lt x a (r - l) l r

/-- Insert `x` at position `p`. -/
def insertAt (p : Nat) (x : α) (l : List α) : List α :=
  l.take p ++ x :: l.drop p

/-- One binary-insertion step of CPython's `binarysort`. -/
def binInsert (lt : α → α → Bool) (acc : List α) (x : α) : List α :=
  insertAt (binLoc lt x acc 0 acc.length) x acc

/-- Binary-insert every element of `rest` into the run `acc`, in order. -/
def binInsertAll (lt : α → α → Bool) (acc rest : List α) : List α :=
  rest.foldl (binInsert lt) acc

/-- Maximal strictly-descending continuation of a run (CPython `count_run`,
descending arm: continue while `a[p] < a[p-1]`). -/
def descRun (lt : α → α → Bool) (prev : α) : List α → List α × List α
  | [] => ([], [])
  | x :: xs =>
    if lt x prev then
      let p := descRun lt x xs
      (x :: p.1, p.2)
    else ([], x :: xs)

/-- Maximal non-descending continuation of a run (CPython `count_run`,
ascending arm: continue while not `a[p] < a[p-1]`). -/
def ascRun (lt : α → α → Bool) (prev : α) : List α → List α × List α
  | [] => ([], [])
  | x :: xs =>
    if lt x prev then ([], x :: xs)
    else
      let p := ascRun lt x xs
      (x :: p.1, p.2)

/-- `sorted(list)` for a list of fewer than 64 elements: one `count_run`
(with reversal of a strictly-descending initial run) followed by binary
insertion of the remaining elements. -/
def pySorted (lt : α → α → Bool) : List α → List α
  | [] => []
  | [x] => [x]
  | x0 :: x1 :: rest =>
    if lt x1 x0 then
      let p := descRun lt x1 rest
      binInsertAll lt (x0 :: x1 :: p.1).reverse p.2
    else
      let p := ascRun lt x1 rest
      binInsertAll lt (x0 :: x1 :: p.1) p.2

/-! ## Season discovery (`Show._populate`, lines 45-49) -/

/-- The season-number list built from the season selector control: each
listed value is prepended (`self.seasons.insert(0, ...)`), so the collected
list is the reverse of the control's display order; with no selector the
list is `[1]`. -/
def showSeasons (selector : Option (List Nat)) : List Nat :=
  match selector with
  | some opts => opts.foldl (fun acc v => v :: acc) []
  | none => [1]

/-! ## Stage 2 of video-URL resolution (`Episode.get_video_url`,
lines 148-164)

The stage-2 player page is abstracted to the two pieces of content the code
inspects: the text of the `error-message` block when one is present, and the
contents of the `window.contextBridge` inline script (the code indexes
`find_all(...)[0]`, so the script's existence is presupposed). -/

structure Stage2Page where
  errorMessage : Option (List Char)
  contextScript : List Char
deriving DecidableEq, Repr

/-- The literal part of
`"encodings": \["https://urs.pbs.org/redirect/(\w*)/"` (line 156). -/
def redirectLit : List Char :=
  "\"encodings\": [\"https://urs.pbs.org/redirect/".data

/-- At-position matcher for the redirect-token pattern; returns group 1.
After the greedy `\w*` run the pattern requires `/"`; a shorter run would be
followed by a word character, never `/`, so greedy backtracking cannot
produce a different match at this position. -/
def matchRedirect (s : List Char) : Option (List Char) :=
  match expectChars redirectLit s with
  | some r =>
    let w := r.takeWhile isWordChar
    match expectChars "/\"".data (r.drop w.length) with
    | some _ => some w
    | none => none
  | none => none

/-- `re.search(r'"encodings": \["https://urs.pbs.org/redirect/(\w*)/"', s)`. -/
def findRedirectToken (script : List Char) : Option (List Char) :=
  searchLeft matchRedirect script

/-- The stage-2 outcome of `get_video_url` (lines 148-159): the error branch
raises `VideoError` with the stripped error-block text; otherwise a missing
redirect-token pattern raises `VideoError('Video redirect token not found')`;
otherwise the redirect token is extracted. -/
def stage2Outcome (p : Stage2Page) : Except (List Char) (List Char) :=
  match p.errorMessage with
  | some m => Except.error (pyStrip m)
  | none =>
    match findRedirectToken p.contextScript with
    | none => Except.error "Video redirect token not found".data
    | some tok => Except.ok tok

/-- The stage-3 requests issued after inspecting the stage-2 page: a `raise`
aborts `get_video_url` before the `requests.get(url_2)` call on line 163, so
the redirect-resolution URL is fetched exactly when stage 2 succeeds. -/
def stage3Requests (p : Stage2Page) : List (List Char) :=
  match stage2Outcome p with
  | Except.error _ => []
  | Except.ok tok =>
    ["https://urs.pbs.org/redirect/".data ++ tok
      ++ "/?format=jsonp&callback=__whatever".data]

/-! ## Audio channel layout mapping (`get_audio_channels`, lines 231-245) -/

/-- `get_audio_channels`: the layout dictionary lookup; an unknown layout
raises `ValueError` carrying the unknown-layout message. -/
def getAudioChannels (channel_layout : List Char) : Except (List Char) (List Char) :=
  if channel_layout = "mono".data then Except.ok "1.0".data
  else if channel_layout = "stereo".data then Except.ok "2.0".data
  else if channel_layout = "5.1(side)".data then Except.ok "5.1".data
  else Except.error ("Unknown audio channel layout ".data ++ channel_layout)

/-! ## Retried rename (`rename_file`, lines 326-330)

`@retry(PermissionError, delay=1, tries=5)` makes up to 5 attempts at
`os.rename`, sleeping 1 second after a `PermissionError` when attempts
remain; a `PermissionError` on the last attempt, or any other exception on
any attempt, propagates. -/

/-- The outcome of one `os.rename` attempt. -/
inductive RenameOutcome where
  | ok
  | permissionError
  | osError
deriving DecidableEq, Repr

/-- The observable run of the retried rename: attempts made, the sleeps
performed between attempts, and `some e` when exception `e` propagated
(`none` when the rename succeeded). -/
structure RetryRun where
  attempts : Nat
  sleeps : List Nat
  raised : Option RenameOutcome
deriving DecidableEq, Repr

/-- The retry loop: `tries` attempts remain and `i` attempts were already
made; `f i` is the outcome of attempt number `i` (0-based). -/
def retryLoop (f : Nat → RenameOutcome) : Nat → Nat → RetryRun
  | 0, i => ⟨i, [], some RenameOutcome.permissionError⟩
  | n + 1, i =>
    match f i with
    | RenameOutcome.ok => ⟨i + 1, [], none⟩
    | RenameOutcome.osError => ⟨i + 1, [], some RenameOutcome.osError⟩
    | RenameOutcome.permissionError =>
      if n = 0 then ⟨i + 1, [], some RenameOutcome.permissionError⟩
      else
        let r := retryLoop f n (i + 1)
        ⟨r.attempts, 1 :: r.sleeps, r.raised⟩

/-- `rename_file` under `@retry(PermissionError, delay=1, tries=5)`. -/
def renameFile (f : Nat → RenameOutcome) : RetryRun := retryLoop f 5 0

/-! ## Auxiliary predicates used by the theorems -/

/-- Does the string contain two consecutive dots? -/
def hasDoubleDot : List Char → Bool
  | [] => false
  | [_] => false
  | a :: b :: rest => (a == '.' && b == '.') || hasDoubleDot (b :: rest)

/-- A literal segment is pattern-safe when it contains no regex
metacharacter (a literal dot is allowed: it compiles to the any-char
wildcard, which still matches the dot itself). -/
def safeLit (s : List Char) : Bool := s.all fun c => !isMeta c

/-- Token compilation of a metacharacter-free literal segment. -/
def compileSafe (s : List Char) : List RTok :=
  s.map fun c => if c = '.' then RTok.anyc else RTok.lit c

/-- The character set eliminated by `Episode.get_normalized_title`. -/
def titleTargets : List Char :=
  [' ', ';', ',', '/', '\\', '\x27', '"', '-', '?', ':', '|']

/-- The shared literal prefix of the numbered-tier filename and of its
duplicate-detection pattern: everything before the technical attributes. -/
def preSeg (e : Episode) : List Char :=
  seasonNormName e.season ++ ".S".data ++ padZeros 2 (e.season.num.getD 0)
    ++ "E".data ++ padZeros 2 (e.num.getD 0) ++ ".".data ++ episodeNormTitle e
    ++ ".".data

/-! ## Sample records used by the concrete check theorems -/

/-- A regular numbered season. -/
def sampleSeason : SeasonRec := ⟨"Show Name".data, some 3, none⟩

/-- A season whose parsed number is 0. -/
def sampleSeasonZero : SeasonRec := ⟨"Show Name".data, some 0, none⟩

/-- A numbered episode of `sampleSeason` with no technical attributes yet. -/
def epNum (n : Nat) : Episode :=
  ⟨sampleSeason, "The Big One".data, some n, none, none, none, none, none, none⟩

/-- An unnumbered (group-tier) episode of `sampleSeason`. -/
def epNoNum : Episode :=
  ⟨sampleSeason, "Backstage".data, none, none, some "Extras".data, none, none,
    none, none⟩

/-- `epNum 7` after probing a downloaded file with the given attributes. -/
def epSevenAt (res : Nat) (vc ac ch : List Char) : Episode :=
  { epNum 7 with
    resolution := some res
    video_codec := some vc
    audio_codec := some ac
    audio_channels := some ch }

/-! ## Lemmas: digit strings and the classification chain -/

theorem takeDigits_spec : ∀ (k : Nat) (s d r : List Char),
    takeDigits k s = some (d, r) →
    d.length = k ∧ (∀ c ∈ d, c.isDigit = true) ∧ s = d ++ r := by
  intro k
  induction k with
  | zero =>
    intro s d r h
    simp only [takeDigits, Option.some.injEq, Prod.mk.injEq] at h
    obtain ⟨rfl, rfl⟩ := h
    simp
  | succ k ih =>
    intro s d r h
    match s with
    | [] => simp [takeDigits] at h
    | c :: cs =>
      simp only [takeDigits] at h
      by_cases hc : c.isDigit
      · rw [if_pos hc] at h
        cases htd : takeDigits k cs with
        | none => rw [htd] at h; simp at h
        | some p =>
          rw [htd] at h
          obtain ⟨d1, r1⟩ := p
          simp only [Option.map_some', Option.some.injEq, Prod.mk.injEq] at h
          obtain ⟨rfl, rfl⟩ := h
          obtain ⟨h1, h2, h3⟩ := ih cs d1 r1 htd
          refine ⟨by simp [h1], ?_, by simp [h3]⟩
          intro x hx
          cases hx with
          | head => exact hc
          | tail _ hx2 => exact h2 x hx2
      · rw [if_neg hc] at h; simp at h

theorem tryDigitsThen_ex : ∀ (ks : List Nat) (s : List Char)
    (tail : List Char → Bool) (d : List Char),
    tryDigitsThen ks s tail = some d →
    ∃ k ∈ ks, ∃ r, takeDigits k s = some (d, r) ∧ tail r = true := by
  intro ks s tail d h
  obtain ⟨k, hk, hf⟩ := List.exists_of_findSome?_eq_some h
  refine ⟨k, hk, ?_⟩
  cases htd : takeDigits k s with
  | none => rw [htd] at hf; simp at hf
  | some p =>
    obtain ⟨d1, r1⟩ := p
    rw [htd] at hf
    have hf1 : (if tail r1 = true then some d1 else none) = some d := hf
    by_cases ht : tail r1 = true
    · rw [if_pos ht] at hf1
      obtain rfl : d1 = d := by injection hf1
      exact ⟨r1, rfl, ht⟩
    · rw [if_neg ht] at hf1; simp at hf1

theorem searchLeft_ex : ∀ (f : List Char → Option β) (s : List Char) (v : β),
    searchLeft f s = some v → ∃ t, f t = some v := by
  intro f s
  induction s with
  | nil => intro v h; exact ⟨[], h⟩
  | cons c cs ih =>
    intro v h
    rw [searchLeft] at h
    cases hf : f (c :: cs) with
    | some w =>
      rw [hf] at h
      simp only [Option.orElse] at h
      exact ⟨c :: cs, by rw [hf, h]⟩
    | none =>
      rw [hf] at h
      simp only [Option.orElse] at h
      exact ih v h

theorem matchEp34_spec : ∀ (s ds : List Char), matchEp34 s = some ds →
    (ds.length = 3 ∨ ds.length = 4) ∧ (∀ c ∈ ds, c.isDigit = true) := by
  intro s ds h
  match s with
  | [] => simp [matchEp34] at h
  | c :: r =>
    rw [matchEp34] at h
    by_cases hc : c = 'S'
    · rw [if_pos hc] at h
      obtain ⟨k1, _, hf⟩ := List.exists_of_findSome?_eq_some h
      cases hrest : sEpRest k1 r with
      | none => rw [hrest] at hf; simp at hf
      | some r2 =>
        rw [hrest] at hf
        obtain ⟨k, hk, r3, htd, _⟩ := tryDigitsThen_ex _ _ _ _ hf
        obtain ⟨hlen, hdig, _⟩ := takeDigits_spec _ _ _ _ htd
        have hk2 : k = 4 ∨ k = 3 := by simpa using hk
        rcases hk2 with rfl | rfl
        · exact ⟨Or.inr hlen, hdig⟩
        · exact ⟨Or.inl hlen, hdig⟩
    · rw [if_neg hc] at h; simp at h

theorem digitsToNat_cons (c : Char) (l : List Char) (x : Nat) :
    (c :: l).foldl (fun a d => a * 10 + digVal d) x =
      l.foldl (fun a d => a * 10 + digVal d) (x * 10 + digVal c) := rfl

theorem digitsToNat_shift : ∀ (l : List Char) (x : Nat),
    l.foldl (fun a d => a * 10 + digVal d) x =
      x * 10 ^ l.length + digitsToNat l := by
  intro l
  induction l with
  | nil => intro x; simp [digitsToNat]
  | cons c cs ih =>
    intro x
    rw [digitsToNat_cons, ih]
    have hrhs : digitsToNat (c :: cs) = digVal c * 10 ^ cs.length + digitsToNat cs := by
      rw [digitsToNat, digitsToNat_cons, ih (0 * 10 + digVal c)]
      norm_num
    rw [hrhs, List.length_cons, pow_succ]
    ring

theorem digitsToNat_append (a b : List Char) :
    digitsToNat (a ++ b) = digitsToNat a * 10 ^ b.length + digitsToNat b := by
  rw [digitsToNat, List.foldl_append, digitsToNat_shift]
  rfl

theorem digVal_lt_ten : ∀ c : Char, c.isDigit = true → digVal c < 10 := by
  intro c hc
  simp only [Char.isDigit, Bool.and_eq_true, decide_eq_true_eq] at hc
  have h9 : c.toNat ≤ 57 := hc.2
  simp only [digVal]
  omega

theorem digitsToNat_lt : ∀ (l : List Char), (∀ c ∈ l, c.isDigit = true) →
    digitsToNat l < 10 ^ l.length := by
  intro l
  induction l with
  | nil => intro _; simp [digitsToNat]
  | cons c cs ih =>
    intro h
    have hc : digVal c < 10 := digVal_lt_ten c (h c (by simp))
    have hcs := ih (fun x hx => h x (by simp [hx]))
    rw [digitsToNat, digitsToNat_cons, digitsToNat_shift]
    simp only [List.length_cons, pow_succ]
    have : 0 * 10 + digVal c = digVal c := by omega
    rw [this]
    calc digVal c * 10 ^ cs.length + digitsToNat cs
        < digVal c * 10 ^ cs.length + 10 ^ cs.length := by omega
      _ = (digVal c + 1) * 10 ^ cs.length := by ring
      _ ≤ 10 * 10 ^ cs.length := by
          have : digVal c + 1 ≤ 10 := by omega
          exact Nat.mul_le_mul_right _ this
      _ = 10 ^ cs.length * 10 := by ring

theorem digitsToNat_lastTwo : ∀ (ds : List Char), 2 ≤ ds.length →
    (∀ c ∈ ds, c.isDigit = true) →
    digitsToNat (ds.drop (ds.length - 2)) = digitsToNat ds % 100 := by
  intro ds h2 hdig
  have hsplit : ds.take (ds.length - 2) ++ ds.drop (ds.length - 2) = ds :=
    List.take_append_drop _ _
  have hlen2 : (ds.drop (ds.length - 2)).length = 2 := by
    rw [List.length_drop]; omega
  have hdrop : ∀ c ∈ ds.drop (ds.length - 2), c.isDigit = true := fun c hc =>
    hdig c (List.mem_of_mem_drop hc)
  have hlt : digitsToNat (ds.drop (ds.length - 2)) < 100 := by
    have := digitsToNat_lt _ hdrop
    rw [hlen2] at this
    simpa using this
  conv_rhs => rw [← hsplit]
  rw [digitsToNat_append, hlen2]
  have h100 : (10 : Nat) ^ 2 = 100 := by norm_num
  rw [h100]
  omega

/-- Claim C1: For every episode metadata fragment, when the 1–2 digit
`S.. Ep..` pattern is the first matching rule the extracted number is the
matched episode field itself, and when instead the 3–4 digit pattern
matches, the extracted episode number is the integer value of the last two
digits of the matched episode field (equivalently, its value mod 100). -/
theorem c1_trailing_two_digits :
    ∀ (info : List Char) (r : EpisodeIdentity), classifyInfo info = some r →
      (∀ n, searchLeft matchEp12 info = some n → r.num = some n) ∧
      (searchLeft matchEp12 info = none →
        ∀ ds, searchLeft matchEp34 info = some ds →
          (ds.length = 3 ∨ ds.length = 4) ∧ (∀ c ∈ ds, c.isDigit = true) ∧
          r.num = some (digitsToNat ds % 100)) := by
  intro info r h
  constructor
  · intro n hA
    rw [classifyInfo, hA] at h
    obtain rfl : (⟨some n, none, none⟩ : EpisodeIdentity) = r := by injection h
    rfl
  · intro hA ds hB
    rw [classifyInfo, hA, hB] at h
    obtain rfl :
        (⟨some (digitsToNat (ds.drop (ds.length - 2))), none, none⟩ :
          EpisodeIdentity) = r := by injection h
    obtain ⟨t, ht⟩ := searchLeft_ex _ _ _ hB
    obtain ⟨hlen, hdig⟩ := matchEp34_spec _ _ ht
    refine ⟨hlen, hdig, ?_⟩
    have h2 : 2 ≤ ds.length := by rcases hlen with h | h <;> omega
    simp only [EpisodeIdentity.num]
    rw [digitsToNat_lastTwo ds h2 hdig]

/-- Claim C1 witness: the fragment `S02 Ep0212 | Aired` classifies to episode
number 12 = 0212 mod 100. -/
theorem c1_trailing_two_digits_witness :
    (⟨some 12, none, none⟩ : EpisodeIdentity).num =
      some (digitsToNat "0212".data % 100) :=
  ((c1_trailing_two_digits "S02 Ep0212 | Aired".data ⟨some 12, none, none⟩
    (by decide)).2 (by decide) "0212".data (by decide)).2.2

/-- Claim C7: Every episode the classification pass produces has exactly one
of the three identity fields set (a `num` field may carry the value 0, which
is nevertheless a set field). -/
theorem c7_exactly_one_identity_field :
    ∀ (info : List Char) (r : EpisodeIdentity), classifyInfo info = some r →
      (r.num.isSome = true ∧ r.date = none ∧ r.additionalGroup = none) ∨
      (r.num = none ∧ r.date.isSome = true ∧ r.additionalGroup = none) ∨
      (r.num = none ∧ r.date = none ∧ r.additionalGroup.isSome = true) := by
  intro info r h
  rw [classifyInfo] at h
  cases h12 : searchLeft matchEp12 info with
  | some n =>
    rw [h12] at h
    obtain rfl : (⟨some n, none, none⟩ : EpisodeIdentity) = r := by injection h
    left; exact ⟨rfl, rfl, rfl⟩
  | none =>
    rw [h12] at h
    cases h34 : searchLeft matchEp34 info with
    | some ds =>
      rw [h34] at h
      obtain rfl :
          (⟨some (digitsToNat (ds.drop (ds.length - 2))), none, none⟩ :
            EpisodeIdentity) = r := by injection h
      left; exact ⟨rfl, rfl, rfl⟩
    | none =>
      rw [h34] at h
      cases hdt : searchLeft matchDateFrag info with
      | some mdy =>
        rw [hdt] at h
        obtain ⟨m, d, y⟩ := mdy
        have h1 : (match pyStrptime m d y with
            | some dt => (some ⟨none, some dt, none⟩ : Option EpisodeIdentity)
            | none => none) = some r := h
        cases hsp : pyStrptime m d y with
        | some dt =>
          rw [hsp] at h1
          obtain rfl : (⟨none, some dt, none⟩ : EpisodeIdentity) = r := by
            injection h1
          right; left; exact ⟨rfl, rfl, rfl⟩
        | none => rw [hsp] at h1; simp at h1
      | none =>
        rw [hdt] at h
        cases hw : searchLeft matchWordGroup info with
        | some w =>
          rw [hw] at h
          obtain rfl : (⟨none, none, some w⟩ : EpisodeIdentity) = r := by
            injection h
          right; right; exact ⟨rfl, rfl, rfl⟩
        | none => rw [hw] at h; simp at h

/-- Claim C7 witness: concrete fragments of all three tiers. -/
theorem c7_exactly_one_identity_field_witness :
    ((⟨some 12, none, none⟩ : EpisodeIdentity).num.isSome = true ∧
      (⟨some 12, none, none⟩ : EpisodeIdentity).date = none ∧
      (⟨some 12, none, none⟩ : EpisodeIdentity).additionalGroup = none) ∨
    ((⟨some 12, none, none⟩ : EpisodeIdentity).num = none ∧
      (⟨some 12, none, none⟩ : EpisodeIdentity).date.isSome = true ∧
      (⟨some 12, none, none⟩ : EpisodeIdentity).additionalGroup = none) ∨
    ((⟨some 12, none, none⟩ : EpisodeIdentity).num = none ∧
      (⟨some 12, none, none⟩ : EpisodeIdentity).date = none ∧
      (⟨some 12, none, none⟩ : EpisodeIdentity).additionalGroup.isSome = true) :=
  c7_exactly_one_identity_field "S02 Ep12 | Aired".data ⟨some 12, none, none⟩
    (by decide)

/-! ## Lemmas: title normalization (C6) -/

theorem collapseDots_head : ∀ (s : List Char) (c : Char), s.head? = some c →
    (collapseDots s).head? = some c := by
  intro s
  induction s with
  | nil => intro c h; simp at h
  | cons a cs ih =>
    intro c h
    obtain rfl : a = c := by injection h
    rw [collapseDots]
    by_cases hcond : (decide (a = '.') && cs.head? == some '.') = true
    · rw [if_pos hcond]
      simp only [Bool.and_eq_true, decide_eq_true_eq, beq_iff_eq] at hcond
      obtain ⟨ha, hh⟩ := hcond
      rw [ha]
      exact ih '.' hh
    · rw [if_neg hcond]; rfl

theorem collapseDots_noDD : ∀ s : List Char, hasDoubleDot (collapseDots s) = false := by
  intro s
  induction s with
  | nil => rfl
  | cons a cs ih =>
    rw [collapseDots]
    by_cases hcond : (decide (a = '.') && cs.head? == some '.') = true
    · rw [if_pos hcond]; exact ih
    · rw [if_neg hcond]
      cases hcc : collapseDots cs with
      | nil => rfl
      | cons b t =>
        rw [hasDoubleDot, ← hcc, ih, Bool.or_false]
        by_cases ha : a = '.'
        · cases cs with
          | nil => simp [collapseDots] at hcc
          | cons c1 cs1 =>
            have hb : b = c1 := by
              have h3 := collapseDots_head (c1 :: cs1) c1 rfl
              rw [hcc] at h3
              injection h3
            have hc1 : c1 ≠ '.' := by
              intro hh
              apply hcond
              simp [ha, List.head?, hh]
            simp [hb, hc1]
        · simp [ha]

theorem collapseDots_of_noDD : ∀ s : List Char, hasDoubleDot s = false →
    collapseDots s = s := by
  intro s
  induction s with
  | nil => intro _; rfl
  | cons a cs ih =>
    intro h
    rw [collapseDots]
    cases cs with
    | nil => simp [collapseDots]
    | cons b t =>
      rw [hasDoubleDot, Bool.or_eq_false_iff] at h
      obtain ⟨hab, ht⟩ := h
      have hcond : (decide (a = '.') && (b :: t).head? == some '.') = false := by
        simp only [List.head?]
        simp only [Bool.and_eq_false_iff] at hab ⊢
        rcases hab with h1 | h1
        · left
          simp only [beq_eq_false_iff_ne, ne_eq] at h1
          simpa using h1
        · right
          simp only [beq_eq_false_iff_ne, ne_eq] at h1
          simpa using h1
      rw [hcond]
      simp only [Bool.false_eq_true, if_false]
      rw [ih ht]

theorem pyReplace_mem : ∀ (s : List Char) (a : Char) (b : List Char) (x : Char),
    x ∈ pyReplace a b s → x ∈ b ∨ (x ∈ s ∧ x ≠ a) := by
  intro s a b x
  induction s with
  | nil => intro h; simp [pyReplace] at h
  | cons c cs ih =>
    intro h
    rw [pyReplace, List.mem_append] at h
    rcases h with h | h
    · by_cases hc : c = a
      · rw [if_pos hc] at h; exact Or.inl h
      · rw [if_neg hc] at h
        obtain rfl : x = c := by simpa using h
        exact Or.inr ⟨by simp, hc⟩
    · rcases ih h with h1 | ⟨h1, h2⟩
      · exact Or.inl h1
      · exact Or.inr ⟨by simp [h1], h2⟩

theorem pyReplace_id : ∀ (s : List Char) (a : Char) (b : List Char),
    a ∉ s → pyReplace a b s = s := by
  intro s a b
  induction s with
  | nil => intro _; rfl
  | cons c cs ih =>
    intro h
    rw [pyReplace]
    have hc : c ≠ a := fun hh => h (by simp [hh])
    rw [if_neg hc, ih (fun hh => h (by simp [hh]))]
    rfl

theorem collapseDots_mem : ∀ (s : List Char) (x : Char),
    x ∈ collapseDots s → x ∈ s := by
  intro s x
  induction s with
  | nil => intro h; simp [collapseDots] at h
  | cons a cs ih =>
    intro h
    rw [collapseDots] at h
    by_cases hcond : (decide (a = '.') && cs.head? == some '.') = true
    · rw [if_pos hcond] at h
      exact List.mem_cons_of_mem a (ih h)
    · rw [if_neg hcond] at h
      rcases List.mem_cons.mp h with rfl | h1
      · exact List.mem_cons_self _ _
      · exact List.mem_cons_of_mem a (ih h1)

theorem titleDotted_mem : ∀ (t : List Char) (x : Char), x ∈ titleDotted t →
    x = '.' ∨ (x ∈ t ∧ x ∉ titleTargets) := by
  intro t x h
  have hdot : ∀ y : Char, y ∈ ['.'] → y = '.' := by intro y hy; simpa using hy
  rw [titleDotted] at h
  rcases pyReplace_mem _ _ _ _ h with h | ⟨h, hne11⟩
  · exact Or.inl (hdot _ h)
  rcases pyReplace_mem _ _ _ _ h with h | ⟨h, hne10⟩
  · simp at h
  rcases pyReplace_mem _ _ _ _ h with h | ⟨h, hne9⟩
  · simp at h
  rcases pyReplace_mem _ _ _ _ h with h | ⟨h, hne8⟩
  · exact Or.inl (hdot _ h)
  rcases pyReplace_mem _ _ _ _ h with h | ⟨h, hne7⟩
  · simp at h
  rcases pyReplace_mem _ _ _ _ h with h | ⟨h, hne6⟩
  · simp at h
  rcases pyReplace_mem _ _ _ _ h with h | ⟨h, hne5⟩
  · exact Or.inl (hdot _ h)
  rcases pyReplace_mem _ _ _ _ h with h | ⟨h, hne4⟩
  · exact Or.inl (hdot _ h)
  rcases pyReplace_mem _ _ _ _ h with h | ⟨h, hne3⟩
  · simp at h
  rcases pyReplace_mem _ _ _ _ h with h | ⟨h, hne2⟩
  · simp at h
  rcases pyReplace_mem _ _ _ _ h with h | ⟨h, hne1⟩
  · exact Or.inl (hdot _ h)
  right
  refine ⟨h, ?_⟩
  intro hmem
  rw [titleTargets] at hmem
  rcases List.mem_cons.mp hmem with rfl | hmem
  · exact hne1 rfl
  rcases List.mem_cons.mp hmem with rfl | hmem
  · exact hne2 rfl
  rcases List.mem_cons.mp hmem with rfl | hmem
  · exact hne3 rfl
  rcases List.mem_cons.mp hmem with rfl | hmem
  · exact hne4 rfl
  rcases List.mem_cons.mp hmem with rfl | hmem
  · exact hne5 rfl
  rcases List.mem_cons.mp hmem with rfl | hmem
  · exact hne6 rfl
  rcases List.mem_cons.mp hmem with rfl | hmem
  · exact hne7 rfl
  rcases List.mem_cons.mp hmem with rfl | hmem
  · exact hne8 rfl
  rcases List.mem_cons.mp hmem with rfl | hmem
  · exact hne9 rfl
  rcases List.mem_cons.mp hmem with rfl | hmem
  · exact hne10 rfl
  rcases List.mem_cons.mp hmem with rfl | hmem
  · exact hne11 rfl
  · simp at hmem

theorem normalizeTitle_no_target : ∀ (t : List Char) (x : Char),
    x ∈ titleTargets → x ∉ normalizeTitle t := by
  intro t x hx hmem
  rw [normalizeTitle] at hmem
  have h1 := collapseDots_mem _ _ hmem
  rcases titleDotted_mem _ _ h1 with rfl | ⟨_, hnt⟩
  · rw [titleTargets] at hx; simp at hx
  · exact hnt hx

theorem titleDotted_of_normalized : ∀ t : List Char,
    titleDotted (normalizeTitle t) = normalizeTitle t := by
  intro t
  have hmem : ∀ c ∈ titleTargets, c ∉ normalizeTitle t := fun c hc =>
    normalizeTitle_no_target t c hc
  rw [titleDotted]
  rw [pyReplace_id _ ' ' _ (hmem ' ' (by rw [titleTargets]; simp))]
  rw [pyReplace_id _ ';' _ (hmem ';' (by rw [titleTargets]; simp))]
  rw [pyReplace_id _ ',' _ (hmem ',' (by rw [titleTargets]; simp))]
  rw [pyReplace_id _ '/' _ (hmem '/' (by rw [titleTargets]; simp))]
  rw [pyReplace_id _ '\\' _ (hmem '\\' (by rw [titleTargets]; simp))]
  rw [pyReplace_id _ '\x27' _ (hmem '\x27' (by rw [titleTargets]; simp))]
  rw [pyReplace_id _ '"' _ (hmem '"' (by rw [titleTargets]; simp))]
  rw [pyReplace_id _ '-' _ (hmem '-' (by rw [titleTargets]; simp))]
  rw [pyReplace_id _ '?' _ (hmem '?' (by rw [titleTargets]; simp))]
  rw [pyReplace_id _ ':' _ (hmem ':' (by rw [titleTargets]; simp))]
  rw [pyReplace_id _ '|' _ (hmem '|' (by rw [titleTargets]; simp))]

/-- Claim C6: Title normalization is idempotent, and a normalized title never
contains two consecutive dots. -/
theorem c6_normalize_idempotent_no_double_dot : ∀ t : List Char,
    normalizeTitle (normalizeTitle t) = normalizeTitle t ∧
    hasDoubleDot (normalizeTitle t) = false := by
  intro t
  have hdd : hasDoubleDot (normalizeTitle t) = false := collapseDots_noDD _
  refine ⟨?_, hdd⟩
  conv_lhs => rw [normalizeTitle, titleDotted_of_normalized]
  exact collapseDots_of_noDD _ hdd

/-- Claim C6 witness: a concrete title with separators, quotes and dot runs. -/
theorem c6_normalize_idempotent_no_double_dot_witness :
    normalizeTitle (normalizeTitle "Who? Me -- no; a/B | fine".data) =
      normalizeTitle "Who? Me -- no; a/B | fine".data ∧
    hasDoubleDot (normalizeTitle "Who? Me -- no; a/B | fine".data) = false :=
  c6_normalize_idempotent_no_double_dot "Who? Me -- no; a/B | fine".data

/-! ## C10: an episode or season number of 0 is treated as unset -/

/-- Claim C10: A parsed episode number 0 (reachable from a 3–4 digit episode
field ending in `00`) is falsy in Python: such an episode compares as "not
less than" every other episode, on both sides, and its filename and
duplicate-detection pattern take the grouped fallback template; a season
number 0 likewise selects the grouped folder-name template. -/
theorem c10_zero_number_unnumbered :
    (∀ e other : Episode, e.num = some 0 →
      pyLt e other = false ∧ pyLt other e = false) ∧
    (∀ (g : Option (List Char)) (e : Episode), e.num = some 0 → e.date = none →
      episodeFilename g e =
        seasonNormName e.season ++ ".".data ++ pyShowOptStr e.additional_group
          ++ ".".data ++ episodeNormTitle e ++ techSuffix g e ∧
      dupeCheckRegex g e =
        seasonNormName e.season ++ ".".data ++ pyShowOptStr e.additional_group
          ++ ".".data ++ episodeNormTitle e ++ ".".data ++ dupeWildTail g) ∧
    (∀ (g : Option (List Char)) (s : SeasonRec), s.num = some 0 →
      seasonFolderName g s =
        seasonNormName s ++ ".".data ++ pyShowOptStr s.additional_group
          ++ ".WEB.h264.AAC".data ++ groupTag g) ∧
    classifyInfo "S03 Ep0300 | Aired".data = some ⟨some 0, none, none⟩ := by
  refine ⟨?_, ?_, ?_, by decide⟩
  · intro e other he
    constructor
    · rw [pyLt, he]
      simp [truthyNat]
    · rw [pyLt, he]
      simp [truthyNat]
  · intro g e he hd
    have hnum : truthyNat e.num = false := by rw [he]; rfl
    have hdate : e.date.isSome = false := by rw [hd]; rfl
    constructor
    · rw [episodeFilename, hnum, hdate]
      simp
    · rw [dupeCheckRegex, hnum, hdate]
      simp
  · intro g s hs
    have hnum : truthyNat s.num = false := by rw [hs]; rfl
    rw [seasonFolderName, hnum]
    simp

/-- Claim C10 witness: the zero-numbered episode `epNum 0` and season
`sampleSeasonZero`. -/
theorem c10_zero_number_unnumbered_witness :
    (pyLt (epNum 0) (epNum 7) = false ∧ pyLt (epNum 7) (epNum 0) = false) ∧
    episodeFilename none (epNum 0) =
      seasonNormName (epNum 0).season ++ ".".data
        ++ pyShowOptStr (epNum 0).additional_group ++ ".".data
        ++ episodeNormTitle (epNum 0) ++ techSuffix none (epNum 0) ∧
    seasonFolderName none sampleSeasonZero =
      seasonNormName sampleSeasonZero ++ ".".data
        ++ pyShowOptStr sampleSeasonZero.additional_group
        ++ ".WEB.h264.AAC".data ++ groupTag none :=
  ⟨c10_zero_number_unnumbered.1 (epNum 0) (epNum 7) (by decide),
    (c10_zero_number_unnumbered.2.1 none (epNum 0) (by decide) (by decide)).1,
    c10_zero_number_unnumbered.2.2.1 none sampleSeasonZero (by decide)⟩

/-! ## C3: season discovery order -/

theorem foldl_cons_rev : ∀ (l : List Nat) (acc : List Nat),
    l.foldl (fun a v => v :: a) acc = l.reverse ++ acc := by
  intro l
  induction l with
  | nil => intro acc; simp
  | cons x xs ih => intro acc; simp [List.foldl_cons, ih]

/-- Claim C3 counterexample: A selector listing the values in the order
`[1, 3, 2]` produces the season list `[2, 3, 1]`, which is not in ascending
numeric order: the collected list is the reverse of the control's display
order, not a sorted list. -/
theorem c3_counterexample :
    showSeasons (some [1, 3, 2]) = [2, 3, 1] ∧
    ¬ List.Pairwise (· ≤ ·) (showSeasons (some [1, 3, 2])) := by
  constructor
  · rfl
  · decide

/-- Claim C3 amended: The season list is the reverse of the selector's display
order (hence ascending exactly when the control lists its values in
descending order, the observed site layout); with no selector it is `[1]`. -/
theorem c3_seasons_reversed :
    (∀ opts : List Nat, showSeasons (some opts) = opts.reverse) ∧
    showSeasons none = [1] ∧
    (∀ opts : List Nat, List.Pairwise (· > ·) opts →
      List.Pairwise (· < ·) (showSeasons (some opts))) := by
  refine ⟨fun opts => ?_, rfl, fun opts h => ?_⟩
  · rw [showSeasons, foldl_cons_rev, List.append_nil]
  · rw [showSeasons, foldl_cons_rev, List.append_nil, List.pairwise_reverse]
    exact h

/-- Claim C3 witness: a descending selector yields an ascending season list. -/
theorem c3_seasons_reversed_witness :
    showSeasons (some [5, 3, 2]) = [2, 3, 5] ∧
    List.Pairwise (· < ·) (showSeasons (some [5, 3, 2])) :=
  ⟨by rw [c3_seasons_reversed.1 [5, 3, 2]]; rfl,
    c3_seasons_reversed.2.2 [5, 3, 2] (by decide)⟩

/-! ## C4: stage-2 failures of video-URL resolution -/

/-- Claim C4: When the stage-2 player page contains an error-message block the
resolver fails with a `VideoError` carrying exactly the block's (stripped)
text and the stage-3 redirect fetch is never issued; with no error block but
no redirect-token pattern in the marker script it fails with
`VideoError('Video redirect token not found')` (and again no stage-3 fetch
occurs). -/
theorem c4_stage2_failures :
    ∀ (p : Stage2Page) (m : List Char),
      (p.errorMessage = some m →
        stage2Outcome p = Except.error (pyStrip m) ∧ stage3Requests p = []) ∧
      (p.errorMessage = none → findRedirectToken p.contextScript = none →
        stage2Outcome p = Except.error "Video redirect token not found".data ∧
        stage3Requests p = []) := by
  intro p m
  constructor
  · intro h
    have h1 : stage2Outcome p = Except.error (pyStrip m) := by
      rw [stage2Outcome, h]
    exact ⟨h1, by rw [stage3Requests, h1]⟩
  · intro h1 h2
    have h3 : stage2Outcome p = Except.error "Video redirect token not found".data := by
      rw [stage2Outcome, h1, h2]
    exact ⟨h3, by rw [stage3Requests, h3]⟩

/-- Claim C4 witness: a geo-restriction error page, and an error-free page
whose script lacks the redirect pattern. -/
theorem c4_stage2_failures_witness :
    stage2Outcome ⟨some " Not available in your region.\n".data, "var x;".data⟩ =
      Except.error (pyStrip " Not available in your region.\n".data) ∧
    stage3Requests ⟨some " Not available in your region.\n".data, "var x;".data⟩ = [] ∧
    stage2Outcome ⟨none, "window.contextBridge = 1;".data⟩ =
      Except.error "Video redirect token not found".data ∧
    stage3Requests ⟨none, "window.contextBridge = 1;".data⟩ = [] := by
  have h1 := (c4_stage2_failures
    ⟨some " Not available in your region.\n".data, "var x;".data⟩
    " Not available in your region.\n".data).1 rfl
  have h2 := (c4_stage2_failures ⟨none, "window.contextBridge = 1;".data⟩ []).2
    rfl (by decide)
  exact ⟨h1.1, h1.2, h2.1, h2.2⟩

/-! ## C8: the retried rename -/

/-- Claim C8: The finalize rename makes up to 5 attempts with a 1-second sleep
between attempts: 4 transient `PermissionError` failures followed by success
give exactly 5 attempts and no raised error; 5 transient failures exhaust
the retries and raise; a non-transient `OSError` on any attempt raises
immediately. -/
theorem c8_rename_retry :
    ∀ f : Nat → RenameOutcome,
      ((∀ i, i < 4 → f i = RenameOutcome.permissionError) →
        f 4 = RenameOutcome.ok → renameFile f = ⟨5, [1, 1, 1, 1], none⟩) ∧
      ((∀ i, i < 5 → f i = RenameOutcome.permissionError) →
        renameFile f = ⟨5, [1, 1, 1, 1], some RenameOutcome.permissionError⟩) ∧
      (∀ k, k ≤ 4 → (∀ i, i < k → f i = RenameOutcome.permissionError) →
        f k = RenameOutcome.osError →
        renameFile f = ⟨k + 1, List.replicate k 1, some RenameOutcome.osError⟩) := by
  intro f
  refine ⟨?_, ?_, ?_⟩
  · intro hp hok
    simp [renameFile, retryLoop, hp 0 (by omega), hp 1 (by omega), hp 2 (by omega),
      hp 3 (by omega), hok]
  · intro hp
    simp [renameFile, retryLoop, hp 0 (by omega), hp 1 (by omega), hp 2 (by omega),
      hp 3 (by omega), hp 4 (by omega)]
  · intro k hk hp hos
    interval_cases k
    · simp [renameFile, retryLoop, hos]
    · simp [renameFile, retryLoop, hp 0 (by omega), hos]
    · simp [renameFile, retryLoop, hp 0 (by omega), hp 1 (by omega), hos]
    · simp [renameFile, retryLoop, hp 0 (by omega), hp 1 (by omega),
        hp 2 (by omega), hos]
    · simp [renameFile, retryLoop, hp 0 (by omega), hp 1 (by omega),
        hp 2 (by omega), hp 3 (by omega), hos]

/-- Claim C8 witness: 4 transient failures then success gives 5 attempts, 4
sleeps and no raised error. -/
theorem c8_rename_retry_witness :
    renameFile (fun i => if i < 4 then RenameOutcome.permissionError
      else RenameOutcome.ok) = ⟨5, [1, 1, 1, 1], none⟩ :=
  (c8_rename_retry (fun i => if i < 4 then RenameOutcome.permissionError
      else RenameOutcome.ok)).1
    (fun i hi => by simp [hi]) (by simp)

/-! ## C9: audio channel layout mapping -/

/-- Claim C9: The channel-layout probe maps exactly the three recognized
layouts (`mono`, `stereo`, `5.1(side)`) to `1.0`, `2.0`, `5.1`, and raises
`ValueError` on every other layout string, so an unrecognized layout is
never written into a filename. -/
theorem c9_audio_layouts :
    getAudioChannels "mono".data = Except.ok "1.0".data ∧
    getAudioChannels "stereo".data = Except.ok "2.0".data ∧
    getAudioChannels "5.1(side)".data = Except.ok "5.1".data ∧
    (∀ l : List Char, l ≠ "mono".data → l ≠ "stereo".data → l ≠ "5.1(side)".data →
      getAudioChannels l =
        Except.error ("Unknown audio channel layout ".data ++ l)) ∧
    (∀ l v, getAudioChannels l = Except.ok v →
      (l = "mono".data ∧ v = "1.0".data) ∨
      (l = "stereo".data ∧ v = "2.0".data) ∨
      (l = "5.1(side)".data ∧ v = "5.1".data)) := by
  refine ⟨rfl, rfl, rfl, ?_, ?_⟩
  · intro l h1 h2 h3
    rw [getAudioChannels, if_neg h1, if_neg h2, if_neg h3]
  · intro l v h
    rw [getAudioChannels] at h
    split_ifs at h with h1 h2 h3
    · exact Or.inl ⟨h1, by injection h with h4; exact h4.symm⟩
    · exact Or.inr (Or.inl ⟨h2, by injection h with h4; exact h4.symm⟩)
    · exact Or.inr (Or.inr ⟨h3, by injection h with h4; exact h4.symm⟩)

/-- Claim C9 witness: the layout `5.1(back)` has no mapping and raises. -/
theorem c9_audio_layouts_witness :
    getAudioChannels "5.1(back)".data =
      Except.error ("Unknown audio channel layout ".data ++ "5.1(back)".data) :=
  c9_audio_layouts.2.2.2.1 "5.1(back)".data (by decide) (by decide) (by decide)

/-! ## Lemmas: the season sort (C2) -/

theorem binInsertAll_cons (lt : α → α → Bool) (acc : List α) (y : α) (ys : List α) :
    binInsertAll lt acc (y :: ys) = binInsertAll lt (binInsert lt acc y) ys := rfl

theorem descRun_cons (lt : α → α → Bool) (prev x : α) (xs : List α) :
    descRun lt prev (x :: xs) =
      if lt x prev then ((x :: (descRun lt x xs).1), (descRun lt x xs).2)
      else ([], x :: xs) := rfl

theorem ascRun_cons (lt : α → α → Bool) (prev x : α) (xs : List α) :
    ascRun lt prev (x :: xs) =
      if lt x prev then ([], x :: xs)
      else ((x :: (ascRun lt x xs).1), (ascRun lt x xs).2) := rfl

theorem pySorted_cons2 (lt : α → α → Bool) (x0 x1 : α) (rest : List α) :
    pySorted lt (x0 :: x1 :: rest) =
      if lt x1 x0 then
        binInsertAll lt (x0 :: x1 :: (descRun lt x1 rest).1).reverse
          (descRun lt x1 rest).2
      else
        binInsertAll lt (x0 :: x1 :: (ascRun lt x1 rest).1) (ascRun lt x1 rest).2 :=
  rfl

theorem descRun_append (lt : α → α → Bool) : ∀ (xs : List α) (prev : α),
    (descRun lt prev xs).1 ++ (descRun lt prev xs).2 = xs := by
  intro xs
  induction xs with
  | nil => intro prev; rfl
  | cons x xs ih =>
    intro prev
    rw [descRun_cons]
    by_cases h : lt x prev = true
    · rw [if_pos h]
      simpa using ih x
    · rw [if_neg h]
      rfl

theorem ascRun_append (lt : α → α → Bool) : ∀ (xs : List α) (prev : α),
    (ascRun lt prev xs).1 ++ (ascRun lt prev xs).2 = xs := by
  intro xs
  induction xs with
  | nil => intro prev; rfl
  | cons x xs ih =>
    intro prev
    rw [ascRun_cons]
    by_cases h : lt x prev = true
    · rw [if_pos h]
      rfl
    · rw [if_neg h]
      simpa using ih x

theorem insertAt_perm (p : Nat) (x : α) (l : List α) :
    (insertAt p x l).Perm (x :: l) := by
  rw [insertAt]
  refine List.perm_middle.trans ?_
  rw [List.take_append_drop]

theorem binInsert_perm (lt : α → α → Bool) (acc : List α) (x : α) :
    (binInsert lt acc x).Perm (x :: acc) := insertAt_perm _ _ _

theorem binInsertAll_perm (lt : α → α → Bool) : ∀ (rest acc : List α),
    (binInsertAll lt acc rest).Perm (acc ++ rest) := by
  intro rest
  induction rest with
  | nil => intro acc; simp [binInsertAll]
  | cons y ys ih =>
    intro acc
    rw [binInsertAll_cons]
    refine (ih (binInsert lt acc y)).trans ?_
    refine (((binInsert_perm lt acc y).append_right ys)).trans ?_
    exact List.perm_middle.symm

theorem pySorted_perm (lt : α → α → Bool) : ∀ l : List α, (pySorted lt l).Perm l := by
  intro l
  match l with
  | [] => exact List.Perm.refl _
  | [x] => exact List.Perm.refl _
  | x0 :: x1 :: rest =>
    rw [pySorted_cons2]
    by_cases h : lt x1 x0 = true
    · rw [if_pos h]
      refine (binInsertAll_perm lt _ _).trans ?_
      refine (((x0 :: x1 :: (descRun lt x1 rest).1).reverse_perm).append_right _).trans ?_
      have hsplit := descRun_append lt rest x1
      have heq : (x0 :: x1 :: (descRun lt x1 rest).1) ++ (descRun lt x1 rest).2 =
          x0 :: x1 :: rest := by
        simp [hsplit]
      rw [heq]
    · rw [if_neg h]
      refine (binInsertAll_perm lt _ _).trans ?_
      have hsplit := ascRun_append lt rest x1
      have heq : (x0 :: x1 :: (ascRun lt x1 rest).1) ++ (ascRun lt x1 rest).2 =
          x0 :: x1 :: rest := by
        simp [hsplit]
      rw [heq]

theorem binLocF_allfalse (lt : α → α → Bool) (x : α) (a : List α)
    (hx : ∀ y, lt x y = false) : ∀ (fuel l r : Nat), l ≤ r → r - l ≤ fuel →
    binLocF lt x a fuel l r = r := by
  intro fuel
  induction fuel with
  | zero =>
    intro l r h1 h2
    have hlr : l = r := by omega
    rw [binLocF, hlr]
  | succ fuel ih =>
    intro l r h1 h2
    rw [binLocF]
    by_cases h : l < r
    · rw [if_pos h, hx]
      rw [if_neg (by simp)]
      exact ih _ _ (by omega) (by omega)
    · rw [if_neg h]; omega

theorem binLoc_allfalse (lt : α → α → Bool) (x : α) (a : List α)
    (hx : ∀ y, lt x y = false) (l r : Nat) (h : l ≤ r) :
    binLoc lt x a l r = r :=
  binLocF_allfalse lt x a hx (r - l) l r h le_rfl

theorem insertAt_at_end (x : α) (l : List α) : insertAt l.length x l = l ++ [x] := by
  rw [insertAt, List.take_length, List.drop_length]

theorem filter_binInsert (lt : α → α → Bool) (q : α → Bool)
    (hq1 : ∀ x, q x = true → ∀ y, lt x y = false) (acc : List α) (x : α) :
    (binInsert lt acc x).filter q =
      if q x then acc.filter q ++ [x] else acc.filter q := by
  by_cases hx : q x = true
  · rw [if_pos hx, binInsert,
      binLoc_allfalse lt x acc (hq1 x hx) 0 acc.length (by omega),
      insertAt_at_end, List.filter_append]
    congr 1
    simp [List.filter, hx]
  · rw [if_neg hx, binInsert, insertAt, List.filter_append,
      List.filter_cons_of_neg hx, ← List.filter_append, List.take_append_drop]

theorem filter_binInsertAll (lt : α → α → Bool) (q : α → Bool)
    (hq1 : ∀ x, q x = true → ∀ y, lt x y = false) : ∀ (rest acc : List α),
    (binInsertAll lt acc rest).filter q = acc.filter q ++ rest.filter q := by
  intro rest
  induction rest with
  | nil => intro acc; simp [binInsertAll]
  | cons y ys ih =>
    intro acc
    rw [binInsertAll_cons, ih, filter_binInsert lt q hq1]
    by_cases hy : q y = true
    · rw [if_pos hy, List.filter_cons_of_pos hy]
      simp
    · rw [if_neg hy, List.filter_cons_of_neg hy]

theorem descRun_lt_ex (lt : α → α → Bool) : ∀ (xs : List α) (prev z : α),
    z ∈ (descRun lt prev xs).1 → ∃ w, lt z w = true := by
  intro xs
  induction xs with
  | nil => intro prev z h; simp [descRun] at h
  | cons x xs ih =>
    intro prev z h
    rw [descRun_cons] at h
    by_cases hx : lt x prev = true
    · rw [if_pos hx] at h
      rcases List.mem_cons.mp h with rfl | h2
      · exact ⟨prev, hx⟩
      · exact ih x z h2
    · rw [if_neg hx] at h; simp at h

theorem pySorted_filter (lt : α → α → Bool) (q : α → Bool)
    (hq1 : ∀ x, q x = true → ∀ y, lt x y = false)
    (hq2 : ∀ x, q x = true → ∀ y, lt y x = false) :
    ∀ l : List α, (pySorted lt l).filter q = l.filter q := by
  intro l
  match l with
  | [] => rfl
  | [x] => rfl
  | x0 :: x1 :: rest =>
    rw [pySorted_cons2]
    by_cases h : lt x1 x0 = true
    · rw [if_pos h, filter_binInsertAll lt q hq1]
      have hrun : (x0 :: x1 :: (descRun lt x1 rest).1).filter q = [] := by
        rw [List.filter_eq_nil_iff]
        intro z hz hqz
        rcases List.mem_cons.mp hz with rfl | hz1
        · exact absurd h (by rw [hq2 z hqz x1]; simp)
        rcases List.mem_cons.mp hz1 with rfl | hz2
        · exact absurd h (by rw [hq1 z hqz x0]; simp)
        · obtain ⟨w, hw⟩ := descRun_lt_ex lt rest x1 z hz2
          exact absurd hw (by rw [hq1 z hqz w]; simp)
      rw [List.filter_reverse, hrun, List.reverse_nil, List.nil_append]
      have hsplit := descRun_append lt rest x1
      have : (x0 :: x1 :: rest).filter q =
          ((x0 :: x1 :: (descRun lt x1 rest).1) ++ (descRun lt x1 rest).2).filter q := by
        congr 1
        simp [hsplit]
      rw [this, List.filter_append, hrun, List.nil_append]
    · rw [if_neg h, filter_binInsertAll lt q hq1]
      have hsplit := ascRun_append lt rest x1
      have : (x0 :: x1 :: rest).filter q =
          ((x0 :: x1 :: (ascRun lt x1 rest).1) ++ (ascRun lt x1 rest).2).filter q := by
        congr 1
        simp [hsplit]
      rw [this, List.filter_append]

/-- Claim C2 counterexample: For the page-scan order `[number 3, unnumbered,
number 1]`, the sort returns the list unchanged (the whole list counts as one
non-descending run, since every comparison against the unnumbered episode
is "not less than"): the numbered episodes end up as 3 before 1, not in
ascending order. -/
theorem c2_counterexample :
    pySorted pyLt [epNum 3, epNoNum, epNum 1] = [epNum 3, epNoNum, epNum 1] ∧
    (pySorted pyLt [epNum 3, epNoNum, epNum 1]).filterMap (fun e => e.num) =
      [3, 1] ∧
    ¬ List.Pairwise (· ≤ ·)
      ((pySorted pyLt [epNum 3, epNoNum, epNum 1]).filterMap (fun e => e.num)) := by
  refine ⟨by decide, by decide, by decide⟩

theorem pairwiseKey_iff_getD (key : α → Nat) (d : α) (l : List α) :
    List.Pairwise (fun a b => key a ≤ key b) l ↔
      (∀ i j, i ≤ j → j < l.length → key (l.getD i d) ≤ key (l.getD j d)) := by
  rw [List.pairwise_iff_getElem]
  constructor
  · intro h i j hij hj
    have hi : i < l.length := lt_of_le_of_lt (by omega : i ≤ j) hj
    rw [List.getD_eq_getElem l d hi, List.getD_eq_getElem l d hj]
    rcases eq_or_lt_of_le hij with rfl | hlt
    · exact le_refl _
    · exact h i j hi hj hlt
  · intro h i j hi hj hij
    have h2 := h i j (by omega) hj
    rw [List.getD_eq_getElem l d hi, List.getD_eq_getElem l d hj] at h2
    exact h2

theorem binLocF_bounds (lt : α → α → Bool) (key : α → Nat) (x : α) (a : List α)
    (hsort : ∀ i j, i ≤ j → j < a.length → key (a.getD i x) ≤ key (a.getD j x))
    (hltm : ∀ m, m < a.length →
      lt x (a.getD m x) = decide (key x < key (a.getD m x))) :
    ∀ (fuel l r : Nat), l ≤ r → r ≤ a.length → r - l ≤ fuel →
      (∀ i, i < l → key (a.getD i x) ≤ key x) →
      (∀ i, r ≤ i → i < a.length → key x < key (a.getD i x)) →
      binLocF lt x a fuel l r ≤ a.length ∧
      (∀ i, i < binLocF lt x a fuel l r → key (a.getD i x) ≤ key x) ∧
      (∀ i, binLocF lt x a fuel l r ≤ i → i < a.length →
        key x < key (a.getD i x)) := by
  intro fuel
  induction fuel with
  | zero =>
    intro l r h1 h2 h3 hl hr
    have hlr : l = r := by omega
    rw [binLocF]
    exact ⟨by omega, hl, fun i hi hilen => hr i (by omega) hilen⟩
  | succ fuel ih =>
    intro l r h1 h2 h3 hl hr
    rw [binLocF]
    by_cases hcase : l < r
    · rw [if_pos hcase]
      have hm1 : l ≤ (l + r) / 2 := by omega
      have hm2 : (l + r) / 2 < r := by omega
      by_cases hp : lt x (a.getD ((l + r) / 2) x) = true
      · rw [if_pos hp]
        refine ih l ((l + r) / 2) (by omega) (by omega) (by omega) hl ?_
        intro i him hilen
        have hkey : key x < key (a.getD ((l + r) / 2) x) := by
          rw [hltm ((l + r) / 2) (by omega)] at hp
          exact of_decide_eq_true hp
        exact lt_of_lt_of_le hkey (hsort _ i him hilen)
      · rw [if_neg hp]
        refine ih ((l + r) / 2 + 1) r (by omega) h2 (by omega) ?_ hr
        intro i hi
        have hkey : key (a.getD ((l + r) / 2) x) ≤ key x := by
          rw [hltm ((l + r) / 2) (by omega)] at hp
          have := of_decide_eq_false (Bool.not_eq_true _ ▸ hp :
            decide (key x < key (a.getD ((l + r) / 2) x)) = false)
          omega
        have hile : key (a.getD i x) ≤ key (a.getD ((l + r) / 2) x) :=
          hsort i ((l + r) / 2) (by omega) (by omega)
        exact le_trans hile hkey
    · rw [if_neg hcase]
      exact ⟨by omega, hl, fun i hi hilen => hr i (by omega) hilen⟩

theorem insertAt_pairwise (key : α → Nat) (x : α) (acc : List α) (p : Nat)
    (hp : p ≤ acc.length)
    (hacc : List.Pairwise (fun a b => key a ≤ key b) acc)
    (h1 : ∀ i, i < p → key (acc.getD i x) ≤ key x)
    (h2 : ∀ i, p ≤ i → i < acc.length → key x < key (acc.getD i x)) :
    List.Pairwise (fun a b => key a ≤ key b) (insertAt p x acc) := by
  rw [insertAt, List.pairwise_append]
  refine ⟨List.Pairwise.sublist (List.take_sublist p acc) hacc, ?_, ?_⟩
  · rw [List.pairwise_cons]
    refine ⟨?_, List.Pairwise.sublist (List.drop_sublist p acc) hacc⟩
    intro b hb
    obtain ⟨⟨i, hi⟩, rfl⟩ := List.mem_iff_get.mp hb
    have hi2 : p + i < acc.length := by
      have := hi
      simp only [List.length_drop] at this
      omega
    have hg : (acc.drop p).get ⟨i, hi⟩ = acc.getD (p + i) x := by
      rw [List.get_eq_getElem, List.getElem_drop, List.getD_eq_getElem acc x hi2]
    rw [hg]
    exact le_of_lt (h2 (p + i) (by omega) hi2)
  · intro a ha b hb
    obtain ⟨⟨i, hi⟩, rfl⟩ := List.mem_iff_get.mp ha
    have hi2 : i < p := by
      have := hi
      simp only [List.length_take] at this
      omega
    have hi3 : i < acc.length := by
      have := hi
      simp only [List.length_take] at this
      omega
    have hga : (acc.take p).get ⟨i, hi⟩ = acc.getD i x := by
      rw [List.get_eq_getElem, List.getElem_take, List.getD_eq_getElem acc x hi3]
    have hax : key ((acc.take p).get ⟨i, hi⟩) ≤ key x := by
      rw [hga]; exact h1 i hi2
    rcases List.mem_cons.mp hb with rfl | hb2
    · exact hax
    · obtain ⟨⟨j, hj⟩, rfl⟩ := List.mem_iff_get.mp hb2
      have hj2 : p + j < acc.length := by
        have := hj
        simp only [List.length_drop] at this
        omega
      have hgb : (acc.drop p).get ⟨j, hj⟩ = acc.getD (p + j) x := by
        rw [List.get_eq_getElem, List.getElem_drop, List.getD_eq_getElem acc x hj2]
      rw [hgb]
      exact le_trans hax (le_of_lt (h2 (p + j) (by omega) hj2))

theorem binInsert_pairwise (lt : α → α → Bool) (key : α → Nat) (good : α → Prop)
    (htotal : ∀ a b, good a → good b → lt a b = decide (key a < key b))
    (acc : List α) (y : α)
    (hacc : List.Pairwise (fun a b => key a ≤ key b) acc)
    (hgood : ∀ b ∈ acc, good b) (hy : good y) :
    List.Pairwise (fun a b => key a ≤ key b) (binInsert lt acc y) := by
  rw [binInsert]
  have hsort := (pairwiseKey_iff_getD key y acc).mp hacc
  have hltm : ∀ m, m < acc.length →
      lt y (acc.getD m y) = decide (key y < key (acc.getD m y)) := by
    intro m hm
    refine htotal y _ hy (hgood _ ?_)
    rw [List.getD_eq_getElem acc y hm]
    exact List.getElem_mem hm
  have hb := binLocF_bounds lt key y acc hsort hltm (acc.length - 0) 0 acc.length
    (by omega) le_rfl (by omega) (fun i hi => absurd hi (by omega))
    (fun i hi hilen => absurd hilen (by omega))
  exact insertAt_pairwise key y acc _ hb.1 hacc hb.2.1 hb.2.2

theorem binInsertAll_pairwise (lt : α → α → Bool) (key : α → Nat) (good : α → Prop)
    (htotal : ∀ a b, good a → good b → lt a b = decide (key a < key b)) :
    ∀ (rest acc : List α),
      List.Pairwise (fun a b => key a ≤ key b) acc →
      (∀ b ∈ acc, good b) → (∀ b ∈ rest, good b) →
      List.Pairwise (fun a b => key a ≤ key b) (binInsertAll lt acc rest) := by
  intro rest
  induction rest with
  | nil => intro acc h _ _; exact h
  | cons y ys ih =>
    intro acc hacc hgood hrest
    rw [binInsertAll_cons]
    refine ih (binInsert lt acc y) ?_ ?_ ?_
    · exact binInsert_pairwise lt key good htotal acc y hacc hgood
        (hrest y (List.mem_cons_self _ _))
    · intro b hb
      have hmem := (binInsert_perm lt acc y).mem_iff.mp hb
      rcases List.mem_cons.mp hmem with rfl | h2
      · exact hrest b (List.mem_cons_self _ _)
      · exact hgood b h2
    · intro b hb
      exact hrest b (List.mem_cons_of_mem y hb)

theorem ascRun_chain (lt : α → α → Bool) : ∀ (xs : List α) (prev : α),
    List.Chain (fun a b => lt b a = false) prev (ascRun lt prev xs).1 := by
  intro xs
  induction xs with
  | nil => intro prev; exact List.Chain.nil
  | cons x xs ih =>
    intro prev
    rw [ascRun_cons]
    by_cases h : lt x prev = true
    · rw [if_pos h]; exact List.Chain.nil
    · rw [if_neg h]
      exact List.Chain.cons (by simpa using h) (ih x)

theorem descRun_chain (lt : α → α → Bool) : ∀ (xs : List α) (prev : α),
    List.Chain (fun a b => lt b a = true) prev (descRun lt prev xs).1 := by
  intro xs
  induction xs with
  | nil => intro prev; exact List.Chain.nil
  | cons x xs ih =>
    intro prev
    rw [descRun_cons]
    by_cases h : lt x prev = true
    · rw [if_pos h]
      exact List.Chain.cons h (ih x)
    · rw [if_neg h]; exact List.Chain.nil

theorem chainF_to_pairwise_le (lt : α → α → Bool) (key : α → Nat) (good : α → Prop)
    (htotal : ∀ a b, good a → good b → lt a b = decide (key a < key b)) :
    ∀ l : List α, List.Chain' (fun a b => lt b a = false) l →
      (∀ b ∈ l, good b) →
      List.Pairwise (fun a b => key a ≤ key b) l := by
  have : IsTrans α (fun a b => key a ≤ key b) := ⟨fun a b c h1 h2 => le_trans h1 h2⟩
  intro l hchain hgood
  rw [← List.chain'_iff_pairwise]
  induction l with
  | nil => exact List.chain'_nil
  | cons a t iht =>
    cases t with
    | nil => simp
    | cons b t2 =>
      rw [List.chain'_cons] at hchain ⊢
      obtain ⟨hab, htl⟩ := hchain
      refine ⟨?_, iht htl (fun z hz => hgood z (List.mem_cons_of_mem a hz))⟩
      have hga : good a := hgood a (List.mem_cons_self _ _)
      have hgb : good b := hgood b (List.mem_cons_of_mem a (List.mem_cons_self _ _))
      rw [htotal b a hgb hga] at hab
      have := of_decide_eq_false (Bool.not_eq_true _ ▸ hab :
        decide (key b < key a) = false)
      omega

theorem chainT_to_pairwise_gt (lt : α → α → Bool) (key : α → Nat) (good : α → Prop)
    (htotal : ∀ a b, good a → good b → lt a b = decide (key a < key b)) :
    ∀ l : List α, List.Chain' (fun a b => lt b a = true) l →
      (∀ b ∈ l, good b) →
      List.Pairwise (fun a b => key b < key a) l := by
  have : IsTrans α (fun a b => key b < key a) := ⟨fun a b c h1 h2 => lt_trans h2 h1⟩
  intro l hchain hgood
  rw [← List.chain'_iff_pairwise]
  induction l with
  | nil => exact List.chain'_nil
  | cons a t iht =>
    cases t with
    | nil => simp
    | cons b t2 =>
      rw [List.chain'_cons] at hchain ⊢
      obtain ⟨hab, htl⟩ := hchain
      refine ⟨?_, iht htl (fun z hz => hgood z (List.mem_cons_of_mem a hz))⟩
      have hga : good a := hgood a (List.mem_cons_self _ _)
      have hgb : good b := hgood b (List.mem_cons_of_mem a (List.mem_cons_self _ _))
      rw [htotal b a hgb hga] at hab
      exact of_decide_eq_true hab

theorem pySorted_pairwise (lt : α → α → Bool) (key : α → Nat) (good : α → Prop)
    (htotal : ∀ a b, good a → good b → lt a b = decide (key a < key b)) :
    ∀ l : List α, (∀ b ∈ l, good b) →
      List.Pairwise (fun a b => key a ≤ key b) (pySorted lt l) := by
  intro l hgood
  match l with
  | [] => exact List.Pairwise.nil
  | [x] => exact List.pairwise_singleton _ x
  | x0 :: x1 :: rest =>
    have hg0 : good x0 := hgood x0 (List.mem_cons_self _ _)
    have hg1 : good x1 := hgood x1 (List.mem_cons_of_mem x0 (List.mem_cons_self _ _))
    rw [pySorted_cons2]
    by_cases h : lt x1 x0 = true
    · rw [if_pos h]
      have hsplit := descRun_append lt rest x1
      have hrungood : ∀ b ∈ x0 :: x1 :: (descRun lt x1 rest).1, good b := by
        intro b hb
        rcases List.mem_cons.mp hb with rfl | hb1
        · exact hg0
        rcases List.mem_cons.mp hb1 with rfl | hb2
        · exact hg1
        · refine hgood b (List.mem_cons_of_mem x0 (List.mem_cons_of_mem x1 ?_))
          rw [← hsplit]
          exact List.mem_append_left _ hb2
      have hrestgood : ∀ b ∈ (descRun lt x1 rest).2, good b := by
        intro b hb
        refine hgood b (List.mem_cons_of_mem x0 (List.mem_cons_of_mem x1 ?_))
        rw [← hsplit]
        exact List.mem_append_right _ hb
      refine binInsertAll_pairwise lt key good htotal _ _ ?_ ?_ hrestgood
      · rw [List.pairwise_reverse]
        have hchain : List.Chain' (fun a b => lt b a = true)
            (x0 :: x1 :: (descRun lt x1 rest).1) := by
          rw [List.chain'_cons]
          exact ⟨h, descRun_chain lt rest x1⟩
        have hgt := chainT_to_pairwise_gt lt key good htotal _ hchain hrungood
        exact hgt.imp (fun hab => le_of_lt hab)
      · intro b hb
        rw [List.mem_reverse] at hb
        exact hrungood b hb
    · rw [if_neg h]
      have hsplit := ascRun_append lt rest x1
      have hrungood : ∀ b ∈ x0 :: x1 :: (ascRun lt x1 rest).1, good b := by
        intro b hb
        rcases List.mem_cons.mp hb with rfl | hb1
        · exact hg0
        rcases List.mem_cons.mp hb1 with rfl | hb2
        · exact hg1
        · refine hgood b (List.mem_cons_of_mem x0 (List.mem_cons_of_mem x1 ?_))
          rw [← hsplit]
          exact List.mem_append_left _ hb2
      have hrestgood : ∀ b ∈ (ascRun lt x1 rest).2, good b := by
        intro b hb
        refine hgood b (List.mem_cons_of_mem x0 (List.mem_cons_of_mem x1 ?_))
        rw [← hsplit]
        exact List.mem_append_right _ hb
      refine binInsertAll_pairwise lt key good htotal _ _ ?_ hrungood hrestgood
      have hchain : List.Chain' (fun a b => lt b a = false)
          (x0 :: x1 :: (ascRun lt x1 rest).1) := by
        rw [List.chain'_cons]
        exact ⟨by simpa using h, ascRun_chain lt rest x1⟩
      exact chainF_to_pairwise_le lt key good htotal _ hchain hrungood

/-- Claim C2 amended: The comparison is "less than" exactly when both episodes
carry a truthy (non-`None`, nonzero) number and the left one is smaller; the
sort (modelled for season listings of fewer than 64 episodes) permutes the
episode list, keeps the relative page-scan order of the unnumbered episodes
among themselves, and puts the numbered episodes into ascending order when
every episode of the list is numbered — but not in general (see the
counterexample). -/
theorem c2_lt_and_sort :
    (∀ a b : Episode, pyLt a b = true ↔
      ∃ m n, a.num = some m ∧ b.num = some n ∧ m ≠ 0 ∧ n ≠ 0 ∧ m < n) ∧
    (∀ l : List Episode, l.length < 64 → (pySorted pyLt l).Perm l) ∧
    (∀ l : List Episode, l.length < 64 →
      (pySorted pyLt l).filter (fun e => !truthyNat e.num) =
        l.filter (fun e => !truthyNat e.num)) ∧
    (∀ l : List Episode, l.length < 64 → (∀ e ∈ l, truthyNat e.num = true) →
      List.Pairwise (fun a b => a.num.getD 0 ≤ b.num.getD 0) (pySorted pyLt l)) := by
  refine ⟨?_, fun l _ => pySorted_perm pyLt l, ?_, ?_⟩
  · intro a b
    constructor
    · intro hlt
      rw [pyLt] at hlt
      cases ha : a.num with
      | none => rw [ha] at hlt; simp [truthyNat] at hlt
      | some m =>
        cases hb : b.num with
        | none => rw [ha, hb] at hlt; simp [truthyNat] at hlt
        | some n =>
          rw [ha, hb] at hlt
          simp only [truthyNat, Option.getD_some, Bool.and_eq_true, bne_iff_ne,
            ne_eq, decide_eq_true_eq] at hlt
          exact ⟨m, n, rfl, rfl, hlt.1.1, hlt.1.2, hlt.2⟩
    · rintro ⟨m, n, hm, hn, h1, h2, h3⟩
      rw [pyLt, hm, hn]
      simp [truthyNat, h1, h2, h3]
  · intro l _
    refine pySorted_filter pyLt _ ?_ ?_ l
    · intro x hx y
      simp only [Bool.not_eq_true'] at hx
      simp [pyLt, hx]
    · intro x hx y
      simp only [Bool.not_eq_true'] at hx
      simp [pyLt, hx]
  · intro l _ hnum
    refine pySorted_pairwise pyLt (fun e => e.num.getD 0)
      (fun e => truthyNat e.num = true) ?_ l hnum
    intro a b ha hb
    rw [pyLt, ha, hb]
    simp

/-- Claim C2 amended witness: a two-episode descending season. -/
theorem c2_lt_and_sort_witness :
    pyLt (epNum 7) (epNum 9) = true ∧
    (pySorted pyLt [epNum 9, epNum 7]).Perm [epNum 9, epNum 7] ∧
    (pySorted pyLt [epNum 9, epNum 7]).filter (fun e => !truthyNat e.num) =
      [epNum 9, epNum 7].filter (fun e => !truthyNat e.num) ∧
    List.Pairwise (fun a b => a.num.getD 0 ≤ b.num.getD 0)
      (pySorted pyLt [epNum 9, epNum 7]) :=
  ⟨(c2_lt_and_sort.1 (epNum 7) (epNum 9)).mpr
      ⟨7, 9, rfl, rfl, by omega, by omega, by omega⟩,
    c2_lt_and_sort.2.1 [epNum 9, epNum 7] (by decide),
    c2_lt_and_sort.2.2.1 [epNum 9, epNum 7] (by decide),
    c2_lt_and_sort.2.2.2 [epNum 9, epNum 7] (by decide) (by decide)⟩

/-! ## Lemmas: the regex fragment matcher and compiler (C5) -/

theorem rmatch_nil (xs : List Char) : rmatch [] xs = true := rfl

theorem rmatch_lit (c : Char) (ps : List RTok) (x : Char) (xs : List Char) :
    rmatch (RTok.lit c :: ps) (x :: xs) = (x == c && rmatch ps xs) := rfl

theorem rmatch_anyc (ps : List RTok) (x : Char) (xs : List Char) :
    rmatch (RTok.anyc :: ps) (x :: xs) = rmatch ps xs := rfl

theorem rmatch_digitTok (ps : List RTok) (x : Char) (xs : List Char) :
    rmatch (RTok.digit :: ps) (x :: xs) = (x.isDigit && rmatch ps xs) := rfl

theorem rmatch_digits24 (ps : List RTok) (xs : List Char) :
    rmatch (RTok.digits 2 4 :: ps) xs =
      (List.range 3).any (fun i =>
        match takeDigits (4 - i) xs with
        | some (_, rest) => rmatch ps rest
        | none => false) := by
  cases xs with
  | nil => rfl
  | cons c cs => rfl

theorem rmatch_word (ps : List RTok) (xs : List Char) :
    rmatch (RTok.wordPlus :: ps) xs =
      (List.range (wordRun xs)).any
        (fun i => rmatch ps (xs.drop (wordRun xs - i))) := by
  cases xs with
  | nil => rfl
  | cons c cs => rfl

theorem rmatch_safe_append : ∀ (a : List Char) (ps : List RTok) (xs : List Char),
    safeLit a = true → rmatch ps xs = true →
    rmatch (compileSafe a ++ ps) (a ++ xs) = true := by
  intro a
  induction a with
  | nil => intro ps xs _ h; exact h
  | cons c cs ih =>
    intro ps xs hsafe h
    have hcs : safeLit cs = true := by
      simp only [safeLit, List.all_cons, Bool.and_eq_true] at hsafe
      exact hsafe.2
    show rmatch ((if c = '.' then RTok.anyc else RTok.lit c) :: (compileSafe cs ++ ps))
      (c :: (cs ++ xs)) = true
    by_cases hc : c = '.'
    · rw [if_pos hc, rmatch_anyc]
      exact ih ps xs hcs h
    · rw [if_neg hc, rmatch_lit]
      simp [ih ps xs hcs h]

theorem takeDigits_exact : ∀ (d xs : List Char), (∀ c ∈ d, c.isDigit = true) →
    takeDigits d.length (d ++ xs) = some (d, xs) := by
  intro d
  induction d with
  | nil => intro xs _; rfl
  | cons c cs ih =>
    intro xs hd
    have hstep : takeDigits (c :: cs).length ((c :: cs) ++ xs) =
        if c.isDigit then
          (takeDigits cs.length (cs ++ xs)).map (fun p => (c :: p.1, p.2))
        else none := rfl
    rw [hstep, if_pos (hd c (List.mem_cons_self _ _)),
      ih xs (fun z hz => hd z (List.mem_cons_of_mem c hz))]
    rfl

theorem rmatch_digits_step (ps : List RTok) (d xs : List Char)
    (hd : ∀ c ∈ d, c.isDigit = true) (h2 : 2 ≤ d.length) (h4 : d.length ≤ 4)
    (h : rmatch ps xs = true) :
    rmatch (RTok.digits 2 4 :: ps) (d ++ xs) = true := by
  rw [rmatch_digits24, List.any_eq_true]
  refine ⟨4 - d.length, ?_, ?_⟩
  · rw [List.mem_range]; omega
  · have hlen : 4 - (4 - d.length) = d.length := by omega
    simp only [hlen, takeDigits_exact d xs hd]
    exact h

theorem takeWhile_word_append : ∀ (w xs : List Char),
    (∀ c ∈ w, isWordChar c = true) →
    (w ++ xs).takeWhile isWordChar = w ++ xs.takeWhile isWordChar := by
  intro w
  induction w with
  | nil => intro xs _; rfl
  | cons c cs ih =>
    intro xs hw
    show List.takeWhile isWordChar (c :: (cs ++ xs)) = _
    rw [List.takeWhile_cons, if_pos (hw c (List.mem_cons_self _ _)),
      ih xs (fun z hz => hw z (List.mem_cons_of_mem c hz))]
    rfl

theorem wordRun_append_ge (w xs : List Char) (hw : ∀ c ∈ w, isWordChar c = true) :
    w.length ≤ wordRun (w ++ xs) := by
  rw [wordRun, takeWhile_word_append w xs hw, List.length_append]
  omega

theorem rmatch_word_step (ps : List RTok) (w xs : List Char)
    (hw : ∀ c ∈ w, isWordChar c = true) (hne : w ≠ [])
    (h : rmatch ps xs = true) :
    rmatch (RTok.wordPlus :: ps) (w ++ xs) = true := by
  rw [rmatch_word, List.any_eq_true]
  have hge := wordRun_append_ge w xs hw
  have hpos : 1 ≤ w.length := by
    cases w with
    | nil => exact absurd rfl hne
    | cons a t => simp
  refine ⟨wordRun (w ++ xs) - w.length, ?_, ?_⟩
  · rw [List.mem_range]; omega
  · have hidx : wordRun (w ++ xs) - (wordRun (w ++ xs) - w.length) = w.length := by
      omega
    rw [hidx, List.drop_left]
    exact h

theorem rsearch_of_head (ps : List RTok) (s : List Char)
    (h : rmatch ps s = true) : rsearch ps s = true := by
  cases s with
  | nil => exact h
  | cons c cs => rw [rsearch, h, Bool.true_or]

theorem compile_safe_append : ∀ (a rest : List Char), safeLit a = true →
    compilePattern (a ++ rest) =
      (compilePattern rest).map (fun t => compileSafe a ++ t) := by
  intro a
  induction a with
  | nil =>
    intro rest _
    cases h : compilePattern rest <;> simp [compileSafe, h]
  | cons c cs ih =>
    intro rest hsafe
    have hmeta : isMeta c = false := by
      simp only [safeLit, List.all_cons, Bool.and_eq_true, Bool.not_eq_true'] at hsafe
      exact hsafe.1
    have hcs : safeLit cs = true := by
      simp only [safeLit, List.all_cons, Bool.and_eq_true] at hsafe
      exact hsafe.2
    have hbs : c ≠ '\\' := by
      intro hh
      rw [hh] at hmeta
      exact absurd hmeta (by decide)
    show compilePattern (c :: (cs ++ rest)) = _
    rw [compilePattern.eq_def]
    dsimp only
    rw [if_neg hbs]
    by_cases hdot : c = '.'
    · rw [if_pos hdot, ih rest hcs]
      cases h : compilePattern rest <;> simp [compileSafe, hdot]
    · rw [if_neg hdot, if_neg (by rw [hmeta]; simp : ¬isMeta c = true), ih rest hcs]
      cases h : compilePattern rest <;> simp [compileSafe, hdot]

theorem compile_digits24_lit (rest : List Char) :
    compilePattern ('\\' :: 'd' :: '\x7b' :: '2' :: ',' :: '4' :: '\x7d' :: rest) =
      (compilePattern rest).map (fun t => RTok.digits 2 4 :: t) := rfl

theorem compile_word_lit (rest : List Char) :
    compilePattern ('\\' :: 'w' :: '+' :: rest) =
      (compilePattern rest).map (fun t => RTok.wordPlus :: t) := by
  rw [compilePattern.eq_def]
  dsimp only
  rw [if_pos (show ('\\' : Char) = '\\' from rfl),
    if_neg (show ¬('w' : Char) = 'd' by decide),
    if_pos (show ('w' : Char) = 'w' from rfl),
    if_pos (show ('+' : Char) = '+' from rfl)]

theorem compile_dot (rest : List Char) :
    compilePattern ('.' :: rest) =
      (compilePattern rest).map (fun t => RTok.anyc :: t) := by
  rw [compilePattern.eq_def]
  dsimp only
  rw [if_neg (show ¬('.' : Char) = '\\' by decide),
    if_pos (show ('.' : Char) = '.' from rfl)]

theorem compile_digit_cons (c2 : Char) (rest2 : List Char) (h : c2 ≠ '\x7b') :
    compilePattern ('\\' :: 'd' :: c2 :: rest2) =
      (compilePattern (c2 :: rest2)).map (fun t => RTok.digit :: t) := by
  rw [compilePattern.eq_def]
  dsimp only
  rw [if_pos (show ('\\' : Char) = '\\' from rfl),
    if_pos (show ('d' : Char) = 'd' from rfl), if_neg h]

/-! ## Lemmas: decimal digit strings of `str(n)` (C5) -/

theorem natDigitsAux_fuel : ∀ (f1 f2 n : Nat), n < f1 → n < f2 →
    natDigitsAux f1 n = natDigitsAux f2 n := by
  intro f1
  induction f1 with
  | zero => intro f2 n h1 _; omega
  | succ f1 ih =>
    intro f2 n h1 h2
    cases f2 with
    | zero => omega
    | succ f2 =>
      rw [natDigitsAux, natDigitsAux]
      by_cases h : n < 10
      · rw [if_pos h, if_pos h]
      · rw [if_neg h, if_neg h, ih f2 (n / 10) (by omega) (by omega)]

theorem natDigits_eq (n : Nat) : natDigits n =
    if n < 10 then [Nat.digitChar n]
    else natDigits (n / 10) ++ [Nat.digitChar (n % 10)] := by
  rw [natDigits, natDigitsAux]
  by_cases h : n < 10
  · rw [if_pos h, if_pos h]
  · rw [if_neg h, if_neg h]
    congr 1
    exact natDigitsAux_fuel n (n / 10 + 1) (n / 10) (by omega) (by omega)

theorem digitChar_isDigit (k : Nat) (h : k < 10) :
    (Nat.digitChar k).isDigit = true := by
  interval_cases k <;> decide

theorem natDigits_all_digit : ∀ (n : Nat), ∀ c ∈ natDigits n, c.isDigit = true := by
  intro n
  induction n using Nat.strong_induction_on with
  | _ n ih =>
    intro c hc
    rw [natDigits_eq] at hc
    by_cases h : n < 10
    · rw [if_pos h] at hc
      simp only [List.mem_singleton] at hc
      rw [hc]
      exact digitChar_isDigit n h
    · rw [if_neg h] at hc
      rcases List.mem_append.mp hc with h1 | h1
      · exact ih (n / 10) (by omega) c h1
      · simp only [List.mem_singleton] at h1
        rw [h1]
        exact digitChar_isDigit (n % 10) (by omega)

theorem natDigits_length_pos : ∀ n : Nat, 1 ≤ (natDigits n).length := by
  intro n
  rw [natDigits_eq]
  by_cases h : n < 10
  · rw [if_pos h]; simp
  · rw [if_neg h]; simp

theorem natDigits_length_le : ∀ (k n : Nat), 1 ≤ k → n < 10 ^ k →
    (natDigits n).length ≤ k := by
  intro k
  induction k with
  | zero => intro n h _; omega
  | succ k ihk =>
    intro n _ hn
    rw [natDigits_eq]
    by_cases h : n < 10
    · rw [if_pos h]; simp
    · rw [if_neg h, List.length_append]
      have hk1 : 1 ≤ k := by
        rcases Nat.eq_zero_or_pos k with rfl | hp
        · simp at hn; omega
        · exact hp
      have hdiv : n / 10 < 10 ^ k := by
        rw [Nat.div_lt_iff_lt_mul (by omega : 0 < 10)]
        calc n < 10 ^ (k + 1) := hn
          _ = 10 ^ k * 10 := by ring
      have := ihk (n / 10) hk1 hdiv
      simp only [List.length_singleton]
      omega

theorem natDigits_length_ge2 (n : Nat) (h : 10 ≤ n) : 2 ≤ (natDigits n).length := by
  rw [natDigits_eq, if_neg (by omega : ¬n < 10), List.length_append]
  have := natDigits_length_pos (n / 10)
  simp only [List.length_singleton]
  omega

theorem isDigit_not_meta (c : Char) (h : c.isDigit = true) : isMeta c = false := by
  have hne : ∀ d : Char, d.isDigit = false → c ≠ d := by
    intro d hd hcd
    rw [hcd] at h
    rw [h] at hd
    exact absurd hd (by simp)
  rw [isMeta]
  simp only [Bool.or_eq_false_iff]
  repeat' apply And.intro
  all_goals exact beq_eq_false_iff_ne.mpr (hne _ (by decide))

theorem safeLit_append (a b : List Char) :
    safeLit (a ++ b) = (safeLit a && safeLit b) := by
  rw [safeLit, safeLit, safeLit, List.all_append]

theorem compileSafe_append (a b : List Char) :
    compileSafe (a ++ b) = compileSafe a ++ compileSafe b := by
  rw [compileSafe, compileSafe, compileSafe, List.map_append]

theorem safeLit_natDigits (n : Nat) : safeLit (natDigits n) = true := by
  rw [safeLit, List.all_eq_true]
  intro c hc
  simp [isDigit_not_meta c (natDigits_all_digit n c hc)]

theorem safeLit_padZeros (w n : Nat) : safeLit (padZeros w n) = true := by
  rw [padZeros, safeLit_append, Bool.and_eq_true]
  constructor
  · rw [safeLit, List.all_eq_true]
    intro c hc
    rw [List.eq_of_mem_replicate hc]
    decide
  · exact safeLit_natDigits n

theorem compile_mp4 :
    compilePattern ".mp4".data = some (compileSafe ".mp4".data) := by decide

theorem rmatch_dot_step (ps : List RTok) (xs : List Char)
    (h : rmatch ps xs = true) :
    rmatch (RTok.anyc :: ps) (".".data ++ xs) = true := by
  show rmatch (RTok.anyc :: ps) ('.' :: xs) = true
  rw [rmatch_anyc]
  exact h

theorem rmatch_digitChar_step (c : Char) (ps : List RTok) (xs : List Char)
    (hc : c.isDigit = true) (h : rmatch ps xs = true) :
    rmatch (RTok.digit :: ps) (c :: xs) = true := by
  rw [rmatch_digitTok, hc, h]
  rfl

theorem compile_digit_grp (grp : List Char) (hg : safeLit grp = true) :
    compilePattern ('\\' :: 'd' :: (grp ++ ".mp4".data)) =
      (compilePattern (grp ++ ".mp4".data)).map (fun t => RTok.digit :: t) := by
  cases grp with
  | nil => exact compile_digit_cons '.' "mp4".data (by decide)
  | cons ch cs =>
    have hch : ch ≠ '\x7b' := by
      simp only [safeLit, List.all_cons, Bool.and_eq_true, Bool.not_eq_true'] at hg
      intro hh
      rw [hh] at hg
      exact absurd hg.1 (by decide)
    show compilePattern ('\\' :: 'd' :: ch :: (cs ++ ".mp4".data)) = _
    rw [compile_digit_cons ch _ hch]
    rfl

theorem compile_wild_tail (grp : List Char) (hg : safeLit grp = true) :
    compilePattern
        ("\\d\x7b2,4\x7dp.WEB.\\w+.\\w+.\\d.\\d".data ++ (grp ++ ".mp4".data)) =
      some (RTok.digits 2 4 :: (compileSafe "p.WEB.".data ++ (RTok.wordPlus ::
        RTok.anyc :: RTok.wordPlus :: RTok.anyc :: RTok.digit :: RTok.anyc ::
        RTok.digit :: (compileSafe grp ++ compileSafe ".mp4".data)))) := by
  have hdecomp :
      "\\d\x7b2,4\x7dp.WEB.\\w+.\\w+.\\d.\\d".data ++ (grp ++ ".mp4".data) =
      '\\' :: 'd' :: '\x7b' :: '2' :: ',' :: '4' :: '\x7d' ::
        ("p.WEB.".data ++ ('\\' :: 'w' :: '+' :: ('.' :: ('\\' :: 'w' :: '+' ::
          ('.' :: ('\\' :: 'd' :: ('.' :: ('\\' :: 'd' ::
            (grp ++ ".mp4".data))))))))) := rfl
  rw [hdecomp, compile_digits24_lit,
    compile_safe_append "p.WEB.".data _ (by decide),
    compile_word_lit, compile_dot, compile_word_lit, compile_dot,
    compile_digit_cons '.' _ (by decide), compile_dot,
    compile_digit_grp grp hg,
    compile_safe_append grp _ hg, compile_mp4]
  rfl

theorem pyReSearch_eq (pat s : List Char) (toks : List RTok)
    (hc : compilePattern pat = some toks) : pyReSearch pat s = rsearch toks s := by
  rw [pyReSearch, hc]

/-- Claim C5 counterexample: The duplicate-detection pattern wildcards the
resolution as `\d{2,4}`, so a previously built filename of the same episode
identity at a 1-digit resolution (5 pixels) is not recognized as a
duplicate: "any resolution" fails outside the 2–4 digit range. -/
theorem c5_counterexample :
    episodeFilename none (epSevenAt 5 "h264".data "AAC".data "2.0".data) =
      "Show.Name.S03E07.The.Big.One.5p.WEB.h264.AAC.2.0.mp4".data ∧
    dupeExists none
      (some [episodeFilename none (epSevenAt 5 "h264".data "AAC".data "2.0".data)])
      (epNum 7) = false :=
  ⟨by decide, by decide⟩

/-- Claim C5 amended: The duplicate check reports no duplicate when the
destination folder does not exist; and for a numbered-tier episode whose
normalized names, title and group tag contain no regex metacharacter, a
folder containing a previously built filename for the same episode identity
with any resolution of 2–4 decimal digits (10–9999), any nonempty
word-character video and audio codec names, and any `<digit>.<digit>`
channel layout, makes the check return true. -/
theorem c5_dupe_detection :
    (∀ (g : Option (List Char)) (e : Episode), dupeExists g none e = false) ∧
    (∀ (g : Option (List Char)) (e : Episode) (res : Nat) (vc ac : List Char)
      (c1 c2 : Char) (files : List (List Char)),
      truthyNat e.season.num = true → truthyNat e.num = true →
      safeLit (seasonNormName e.season) = true →
      safeLit (episodeNormTitle e) = true →
      safeLit (groupTag g) = true →
      10 ≤ res → res ≤ 9999 →
      vc ≠ [] → (∀ c ∈ vc, isWordChar c = true) →
      ac ≠ [] → (∀ c ∈ ac, isWordChar c = true) →
      c1.isDigit = true → c2.isDigit = true →
      episodeFilename g
        { e with
          resolution := some res
          video_codec := some vc
          audio_codec := some ac
          audio_channels := some (c1 :: '.' :: [c2]) } ∈ files →
      dupeExists g (some files) e = true) := by
  constructor
  · intro g e; rfl
  · intro g e res vc ac c1 c2 files hsn hen hsafeN hsafeT hsafeG hr1 hr2 hvne hvw
      hane haw hd1 hd2 hmem
    have hcond : (truthyNat e.season.num && truthyNat e.num) = true := by
      rw [hsn, hen]; rfl
    have hfile : episodeFilename g
        { e with
          resolution := some res
          video_codec := some vc
          audio_codec := some ac
          audio_channels := some (c1 :: '.' :: [c2]) } =
        preSeg e ++ (natDigits res ++ ("p.WEB.".data ++ (vc ++ (".".data ++
          (ac ++ (".".data ++ (c1 :: '.' :: c2 :: (groupTag g ++
            ".mp4".data)))))))) := by
      rw [episodeFilename, if_pos hcond]
      simp [preSeg, techSuffix, episodeNormTitle, pyShowOptNat, pyShowOptStr,
        List.append_assoc]
    have hpat : dupeCheckRegex g e =
        preSeg e ++ ("\\d\x7b2,4\x7dp.WEB.\\w+.\\w+.\\d.\\d".data ++
          (groupTag g ++ ".mp4".data)) := by
      rw [dupeCheckRegex, if_pos hcond]
      simp [preSeg, dupeWildTail, List.append_assoc]
    have hsafePre : safeLit (preSeg e) = true := by
      simp only [preSeg, safeLit_append, hsafeN, hsafeT, safeLit_padZeros,
        Bool.true_and, Bool.and_true]
      decide
    have hcompile : compilePattern (dupeCheckRegex g e) =
        some (compileSafe (preSeg e) ++ (RTok.digits 2 4 ::
          (compileSafe "p.WEB.".data ++ (RTok.wordPlus :: RTok.anyc ::
            RTok.wordPlus :: RTok.anyc :: RTok.digit :: RTok.anyc :: RTok.digit ::
            (compileSafe (groupTag g) ++ compileSafe ".mp4".data))))) := by
      rw [hpat, compile_safe_append _ _ hsafePre, compile_wild_tail _ hsafeG]
      rfl
    have hmatch : rmatch (compileSafe (preSeg e) ++ (RTok.digits 2 4 ::
        (compileSafe "p.WEB.".data ++ (RTok.wordPlus :: RTok.anyc ::
          RTok.wordPlus :: RTok.anyc :: RTok.digit :: RTok.anyc :: RTok.digit ::
          (compileSafe (groupTag g) ++ compileSafe ".mp4".data)))))
        (preSeg e ++ (natDigits res ++ ("p.WEB.".data ++ (vc ++ (".".data ++
          (ac ++ (".".data ++ (c1 :: '.' :: c2 :: (groupTag g ++
            ".mp4".data))))))))) = true := by
      apply rmatch_safe_append _ _ _ hsafePre
      apply rmatch_digits_step _ _ _ (natDigits_all_digit res)
        (natDigits_length_ge2 res hr1)
        (natDigits_length_le 4 res (by omega) (by norm_num; omega))
      apply rmatch_safe_append _ _ _ (by decide)
      apply rmatch_word_step _ _ _ hvw hvne
      apply rmatch_dot_step
      apply rmatch_word_step _ _ _ haw hane
      apply rmatch_dot_step
      apply rmatch_digitChar_step _ _ _ hd1
      rw [rmatch_anyc]
      apply rmatch_digitChar_step _ _ _ hd2
      apply rmatch_safe_append _ _ _ hsafeG
      decide
    have hsearch : pyReSearch (dupeCheckRegex g e)
        (episodeFilename g
          { e with
            resolution := some res
            video_codec := some vc
            audio_codec := some ac
            audio_channels := some (c1 :: '.' :: [c2]) }) = true := by
      rw [pyReSearch_eq _ _ _ hcompile, hfile]
      exact rsearch_of_head _ _ hmatch
    have hde : dupeExists g (some files) e =
        files.any (fun f => pyReSearch (dupeCheckRegex g e) f) := rfl
    rw [hde, List.any_eq_true]
    exact ⟨_, hmem, hsearch⟩

/-- Claim C5 witness: an existing 720p/h265 copy of S03E07 is detected as a
duplicate for a re-request of the same episode, and a missing folder
reports no duplicate. -/
theorem c5_dupe_detection_witness :
    dupeExists none (some [episodeFilename none
      (epSevenAt 720 "h265".data "AAC".data ('2' :: '.' :: ['0']))])
      (epNum 7) = true ∧
    dupeExists none none (epNum 7) = false :=
  ⟨c5_dupe_detection.2 none (epNum 7) 720 "h265".data "AAC".data '2' '0'
      [episodeFilename none (epSevenAt 720 "h265".data "AAC".data ('2' :: '.' :: ['0']))]
      (by decide) (by decide) (by decide) (by decide) (by decide) (by omega)
      (by omega) (by decide) (by decide) (by decide) (by decide) (by decide)
      (by decide) (by decide),
    c5_dupe_detection.1 none (epNum 7)⟩

end OpbOffline
